import Mathlib

/-!
Formal model of the DungeonTracker grid/room tracker
(`dungeontracker.js`, with the grid math factored into `dungeonGridSvg.js`),
together with proofs about its annotation store, room-formation engine and
viewport controller.

Modelling conventions:
* A cell key `"c,r"` is modelled by the integer pair `(c, r) : ℤ × ℤ`;
  the JavaScript string encoding is injective on such pairs, so the pair is
  a faithful stand-in for the key string.
* A room id `"R<n>"` is modelled by its numeric part `n : ℕ` (the template
  makes that encoding injective); display names keep the full string form,
  e.g. `"Room R" ++ toString n`.
* JavaScript objects used as string-keyed maps (`data.cells`, `data.rooms`)
  are modelled as functions into `Option`; none of the modelled operations
  observes object iteration order.
* Mutable closure state read by the panel operations (the current edit
  target `editTarget` and the selected cell key `selectedCellKey`) is
  passed to them explicitly.  `selectedRect` is non-null exactly when
  `selectedCellKey` is (both are set together in `selectCell` and cleared
  together), so a single `Option Coord` models both.
* Viewport numbers are modelled by `ℚ`; the viewport code uses only field
  operations, `min` and `max` (the pinch distance, whose computation uses
  a square root, enters only as an opaque input here).
* The breadth-first loop of `isContiguous` terminates because each
  iteration either consumes a queue entry or moves unseen staged cells
  into `seen`; the model makes this explicit with a fuel argument, set to
  `keys.length`, which is proved sufficient (`bfsLoopF_closed` needs only
  `|set \ seen| + |queue| ≤ fuel`, and the initial measure is at most the
  number of staged keys).
-/

namespace DungeonTracker

/-- Cell coordinate `(col, row)`; models the cell-key string `"c,r"`
built by `key(c, r)`. -/
abbrev Coord := ℤ × ℤ

/-- The four neighbour keys generated in the BFS of `isContiguous`:
`key(c+1, r), key(c-1, r), key(c, r+1), key(c, r-1)`. -/
def neighKeys (p : Coord) : List Coord :=
  [(p.1 + 1, p.2), (p.1 - 1, p.2), (p.1, p.2 + 1), (p.1, p.2 - 1)]

/-- The inner `for (const n of neigh)` loop of `isContiguous`: each
neighbour that is staged (`set.has(n)`) and unseen is appended to the
queue and added to `seen`, sequentially. -/
def pushNeighbors (set : Finset Coord) :
    List Coord → List Coord → Finset Coord → List Coord × Finset Coord
  | [], q, seen => (q, seen)
  | n :: ns, q, seen =>
      if n ∈ set ∧ n ∉ seen then
        pushNeighbors set ns (q ++ [n]) (insert n seen)
      else
        pushNeighbors set ns q seen

/-- The `while (q.length)` loop of `isContiguous`: dequeue the front cell
(`q.shift()`), push its staged unseen neighbours.  The fuel argument only
bounds the iteration count; `isContiguous` supplies a provably sufficient
amount. -/
def bfsLoopF (set : Finset Coord) : ℕ → List Coord → Finset Coord → Finset Coord
  | _, [], seen => seen
  | 0, _ :: _, seen => seen
  | fuel + 1, cur :: q, seen =>
      let p := pushNeighbors set (neighKeys cur) q seen
      bfsLoopF set fuel p.1 p.2

/-- `isContiguous(keys)`: `true` for at most one key; otherwise BFS from
`keys[0]` through staged neighbours and compare `seen.size === set.size`. -/
def isContiguous (keys : List Coord) : Bool :=
  if keys.length ≤ 1 then true
  else
    match keys with
    | [] => true
    | start :: rest =>
        (bfsLoopF (start :: rest).toFinset (start :: rest).length
            [start] {start}).card == (start :: rest).toFinset.card

/-- 4-neighbour adjacency: the relation the BFS explores. -/
def adjacent (a b : Coord) : Prop := b ∈ neighKeys a

instance : DecidablePred fun p : Coord × Coord => adjacent p.1 p.2 := by
  intro p; unfold adjacent; infer_instance

/-- One BFS step inside the staged set: the target is staged and adjacent. -/
def stepIn (set : Finset Coord) (a b : Coord) : Prop := b ∈ set ∧ adjacent a b

/-- Reachability through staged cells: reflexive-transitive closure of
`stepIn`. -/
def ReachIn (set : Finset Coord) : Coord → Coord → Prop :=
  Relation.ReflTransGen (stepIn set)

/-- The 4-neighbour graph induced on `s` has exactly one connected
component: some vertex exists and reaches every vertex inside `s`. -/
def oneComponent (s : Finset Coord) : Prop :=
  ∃ a ∈ s, ∀ b ∈ s, ReachIn s a b

/-- Cell record `{ c: null, n: "", icon: "", roomId: null }`. -/
structure Cell where
  c : Option String
  n : String
  icon : String
  roomId : Option ℕ
deriving DecidableEq

/-- The default-initialised cell record created on first access. -/
def defaultCell : Cell := { c := none, n := "", icon := "", roomId := none }

/-- Room record `{ id, name, kind, c, n, icon, cells }`; the id string
`"R<n>"` is represented by its numeric part. -/
structure Room where
  id : ℕ
  name : String
  kind : String
  c : String
  n : String
  icon : String
  cells : List Coord
deriving DecidableEq

/-- The store `data`: `{ cells, rooms, meta: { nextRoomId } }`. -/
structure Store where
  cells : Coord → Option Cell
  rooms : ℕ → Option Room
  nextRoomId : ℕ

/-- Point update of the cell map (`data.cells[k] = v`). -/
def updCells (f : Coord → Option Cell) (k : Coord) (v : Cell) :
    Coord → Option Cell :=
  fun k2 => if k2 = k then some v else f k2

/-- Point update of the room map (`data.rooms[i] = v`). -/
def updRooms (f : ℕ → Option Room) (i : ℕ) (v : Room) : ℕ → Option Room :=
  fun i2 => if i2 = i then some v else f i2

/-- `delete data.rooms[i]`. -/
def eraseRoom (f : ℕ → Option Room) (i : ℕ) : ℕ → Option Room :=
  fun i2 => if i2 = i then none else f i2

/-- The freshly initialised store `{ cells:{}, rooms:{}, meta:{ nextRoomId: 1 } }`. -/
def emptyStore : Store :=
  { cells := fun _ => none, rooms := fun _ => none, nextRoomId := 1 }

/-- `ensureCell(c, r)`: read-through creation
(`data.cells[k] ??= { c:null, n:"", icon:"", roomId:null }`), returning the
possibly-extended store and the record.  The legacy backfill of missing
`icon`/`roomId` fields is the identity in this typed model. -/
def ensureCell (s : Store) (k : Coord) : Store × Cell :=
  match s.cells k with
  | some cell => (s, cell)
  | none => ({ s with cells := updCells s.cells k defaultCell }, defaultCell)

/-- The string key `"c,r"`; it is the sort key for a new room's cell list. -/
def keyStr (p : Coord) : String := toString p.1 ++ "," ++ toString p.2

/-- `keys.slice().sort()`: JavaScript's default sort compares the key
strings. -/
def sortKeys (l : List Coord) : List Coord :=
  l.mergeSort (fun a b => keyStr a ≤ keyStr b)

/-- `anyInRoom(keys)`: walk the staged keys through `ensureCell` and return
the first non-null `roomId` found (together with the store, which
`ensureCell` may have extended with default records). -/
def anyInRoom (s : Store) : List Coord → Store × Option ℕ
  | [] => (s, none)
  | k :: ks =>
      let p := ensureCell s k
      match p.2.roomId with
      | some rid => (p.1, some rid)
      | none => anyInRoom p.1 ks

/-- The `for (const k of room.cells)` loop of `createRoomFromStage`:
`ensureCell(c, r).roomId = id` for each member key. -/
def assignRoomIds (s : Store) (id : ℕ) : List Coord → Store
  | [] => s
  | k :: ks =>
      let p := ensureCell s k
      assignRoomIds
        { p.1 with cells := updCells p.1.cells k { p.2 with roomId := some id } }
        id ks

/-- `createRoomFromStage()`, restricted to its store mutation: empty stage
is a silent no-op; a non-contiguous stage fails; a stage touching an
existing room fails; otherwise allocate `R<nextRoomId++>`, insert the room
record with the sorted member list and defaults, and assign `roomId` on
every member cell. -/
def createRoomFromStage (staged : List Coord) (s : Store) : Store :=
  if staged.isEmpty then s
  else if !(isContiguous staged) then s
  else
    let p := anyInRoom s staged
    match p.2 with
    | some _ => p.1
    | none =>
        let id := p.1.nextRoomId
        let room : Room :=
          { id := id, name := "Room R" ++ toString id, kind := "room",
            c := "#3c6270", n := "", icon := "", cells := sortKeys staged }
        assignRoomIds
          { p.1 with rooms := updRooms p.1.rooms id room, nextRoomId := id + 1 }
          id room.cells

/-- The member loop of `dissolveRoom`: `ensureCell(c, r).roomId = null`. -/
def clearRoomIds (s : Store) : List Coord → Store
  | [] => s
  | k :: ks =>
      let p := ensureCell s k
      clearRoomIds
        { p.1 with cells := updCells p.1.cells k { p.2 with roomId := none } }
        ks

/-- `dissolveRoom(roomId)`: no-op for an unknown id; otherwise clear
`roomId` on every member cell and delete the room record.  Cell attributes
are not touched (no attribute transfer from the room). -/
def dissolveRoom (rid : ℕ) (s : Store) : Store :=
  match s.rooms rid with
  | none => s
  | some room =>
      let s1 := clearRoomIds s room.cells
      { s1 with rooms := eraseRoom s1.rooms rid }

/-- `getCurrentCell()`: `ensureCell` on the selected key, if any. -/
def getCurrentCellS (sel : Option Coord) (s : Store) : Store × Option Cell :=
  match sel with
  | none => (s, none)
  | some k =>
      let p := ensureCell s k
      (p.1, some p.2)

/-- `getCurrentRoom()`: the selected cell's owning room, if any; returns
the room-map key alongside the record (in-place mutation targets that
key, while `deleteCurrentRoom` reads the record's `id` field). -/
def getCurrentRoomS (sel : Option Coord) (s : Store) :
    Store × Option (ℕ × Room) :=
  let p := getCurrentCellS sel s
  match p.2 with
  | none => (p.1, none)
  | some cell =>
      match cell.roomId with
      | none => (p.1, none)
      | some rid =>
          match p.1.rooms rid with
          | none => (p.1, none)
          | some room => (p.1, some (rid, room))

/-- `deleteCurrentRoom()`, minus the confirmation dialog: resolve the
current room and dissolve it via its `id` field. -/
def deleteCurrentRoom (sel : Option Coord) (s : Store) : Store :=
  let p := getCurrentRoomS sel s
  match p.2 with
  | none => p.1
  | some pr => dissolveRoom pr.2.id p.1

/-- The panel's edit target: `"cell" | "room"`. -/
inductive EditTarget where
  | cell
  | room
deriving DecidableEq

/-- `applyColor(color)`: with a room target, set the owning room's colour;
with a cell target, set the cell's own colour (note: no grouped-cell
guard). -/
def applyColor (t : EditTarget) (sel : Option Coord) (color : String)
    (s : Store) : Store :=
  match sel with
  | none => s
  | some k =>
      let p := ensureCell s k
      match t with
      | .room =>
          match p.2.roomId with
          | none => p.1
          | some rid =>
              match p.1.rooms rid with
              | none => p.1
              | some room =>
                  { p.1 with rooms := updRooms p.1.rooms rid { room with c := color } }
      | .cell =>
          { p.1 with cells := updCells p.1.cells k { p.2 with c := some color } }

/-- `applyIcon(icon)`: same dispatch as `applyColor` for the `icon` field
(`icon || ""` is the identity on strings). -/
def applyIcon (t : EditTarget) (sel : Option Coord) (icon : String)
    (s : Store) : Store :=
  match sel with
  | none => s
  | some k =>
      let p := ensureCell s k
      match t with
      | .room =>
          match p.2.roomId with
          | none => p.1
          | some rid =>
              match p.1.rooms rid with
              | none => p.1
              | some room =>
                  { p.1 with rooms := updRooms p.1.rooms rid { room with icon := icon } }
      | .cell =>
          { p.1 with cells := updCells p.1.cells k { p.2 with icon := icon } }

/-- `applyNotes(notes)`: same dispatch for the `n` field (no
`selectedRect` guard in the source, but `selectedRect` is null exactly
when `selectedCellKey` is). -/
def applyNotes (t : EditTarget) (sel : Option Coord) (notes : String)
    (s : Store) : Store :=
  match sel with
  | none => s
  | some k =>
      let p := ensureCell s k
      match t with
      | .room =>
          match p.2.roomId with
          | none => p.1
          | some rid =>
              match p.1.rooms rid with
              | none => p.1
              | some room =>
                  { p.1 with rooms := updRooms p.1.rooms rid { room with n := notes } }
      | .cell =>
          { p.1 with cells := updCells p.1.cells k { p.2 with n := notes } }

/-- `applyRoomName(name)`: `room.name = name || room.name` — an empty
string keeps the previous name. -/
def applyRoomName (sel : Option Coord) (name : String) (s : Store) : Store :=
  let p := getCurrentRoomS sel s
  match p.2 with
  | none => p.1
  | some pr =>
      let room2 : Room := { pr.2 with name := if name = "" then pr.2.name else name }
      { p.1 with rooms := updRooms p.1.rooms pr.1 room2 }

/-- `applyRoomKind(kind)`: `room.kind = kind || "room"`. -/
def applyRoomKind (sel : Option Coord) (kind : String) (s : Store) : Store :=
  let p := getCurrentRoomS sel s
  match p.2 with
  | none => p.1
  | some pr =>
      let room2 : Room := { pr.2 with kind := if kind = "" then "room" else kind }
      { p.1 with rooms := updRooms p.1.rooms pr.1 room2 }

/-- `clearSelectedCell()`: blocked (alert, no mutation) when the cell is
grouped; otherwise reset `c`/`icon`/`n` to defaults. -/
def clearSelectedCell (sel : Option Coord) (s : Store) : Store :=
  match sel with
  | none => s
  | some k =>
      let p := ensureCell s k
      match p.2.roomId with
      | some _ => p.1
      | none =>
          let cell2 : Cell := { p.2 with c := none, icon := "", n := "" }
          { p.1 with cells := updCells p.1.cells k cell2 }

/-- The `data` object of a parsed import blob; `none` models an absent or
null field (the falsy cases of the source's check). -/
structure BlobData where
  cells : Option (Coord → Option Cell)
  rooms : Option (ℕ → Option Room)
  meta : Option ℕ

/-- A parsed snapshot blob `{ cols, rows, data }`. -/
structure Blob where
  cols : Option ℕ
  rows : Option ℕ
  data : Option BlobData

/-- `doImport`, after `JSON.parse`: reject (`"Invalid file."`, store
untouched) unless `obj?.data?.cells` and `obj?.data?.rooms` are present;
otherwise replace `cells`/`rooms` wholesale and default `meta` to
`{ nextRoomId: 1 }`. -/
def doImport (b : Blob) (s : Store) : Store :=
  match b.data with
  | none => s
  | some d =>
      match d.cells, d.rooms with
      | some c, some r => { cells := c, rooms := r, nextRoomId := d.meta.getD 1 }
      | _, _ => s

/-- `doExport()`: serialise `{ cols, rows, data }` with the full store. -/
def doExport (cols rows : ℕ) (s : Store) : Blob :=
  { cols := some cols, rows := some rows,
    data := some { cells := some s.cells, rooms := some s.rooms,
                   meta := some s.nextRoomId } }

/-- `doWipe()`, minus the confirmation dialog: reset to the empty store
with the counter restarted at 1. -/
def doWipe (_ : Store) : Store := emptyStore

/-- The import format check passes (both required mapping fields present). -/
def importOk (b : Blob) : Prop :=
  ∃ d, b.data = some d ∧ d.cells ≠ none ∧ d.rooms ≠ none

/-- One user-triggered store mutation, with the ephemeral selection inputs
it reads made explicit. -/
inductive Op where
  | create (staged : List Coord)
  | dissolve (rid : ℕ)
  | delete (sel : Option Coord)
  | color (t : EditTarget) (sel : Option Coord) (v : String)
  | icon (t : EditTarget) (sel : Option Coord) (v : String)
  | notes (t : EditTarget) (sel : Option Coord) (v : String)
  | roomName (sel : Option Coord) (v : String)
  | roomKind (sel : Option Coord) (v : String)
  | clearCell (sel : Option Coord)
  | imp (b : Blob)
  | wipe

/-- Interpret one operation on the store. -/
def applyOp (s : Store) : Op → Store
  | .create staged => createRoomFromStage staged s
  | .dissolve rid => dissolveRoom rid s
  | .delete sel => deleteCurrentRoom sel s
  | .color t sel v => applyColor t sel v s
  | .icon t sel v => applyIcon t sel v s
  | .notes t sel v => applyNotes t sel v s
  | .roomName sel v => applyRoomName sel v s
  | .roomKind sel v => applyRoomKind sel v s
  | .clearCell sel => clearSelectedCell sel s
  | .imp b => doImport b s
  | .wipe => doWipe s

/-- Interpret a sequence of operations, left to right. -/
def applyOps (s : Store) (ops : List Op) : Store := ops.foldl applyOp s

/-- Store well-formedness (the inductive invariant maintained by the
operations): cells point to existing rooms listing them, members point
back, room keys are below the counter, and each record's `id` matches its
key. -/
structure WellFormed (s : Store) : Prop where
  cellRoom : ∀ k cell rid, s.cells k = some cell → cell.roomId = some rid →
      ∃ room, s.rooms rid = some room ∧ k ∈ room.cells
  memberBack : ∀ rid room k, s.rooms rid = some room → k ∈ room.cells →
      ∃ cell, s.cells k = some cell ∧ cell.roomId = some rid
  idLt : ∀ rid room, s.rooms rid = some room → rid < s.nextRoomId
  idEq : ∀ rid room, s.rooms rid = some room → room.id = rid

/-- First half of the claimed invariant: no dangling `roomId`. -/
def CellRoomInv (s : Store) : Prop :=
  ∀ k cell rid, s.cells k = some cell → cell.roomId = some rid →
      ∃ room, s.rooms rid = some room ∧ k ∈ room.cells

/-- Second half of the claimed invariant: no two rooms share a member. -/
def RoomsDisjoint (s : Store) : Prop :=
  ∀ r1 r2 room1 room2, s.rooms r1 = some room1 → s.rooms r2 = some room2 →
      r1 ≠ r2 → ∀ k, k ∈ room1.cells → k ∉ room2.cells

/-- An import blob whose payload, once installed, is itself well formed. -/
def BlobWF (b : Blob) : Prop :=
  ∀ d c r, b.data = some d → d.cells = some c → d.rooms = some r →
      WellFormed { cells := c, rooms := r, nextRoomId := d.meta.getD 1 }

/-! ### Viewport controller -/

/-- The viewBox window `{ x, y, w, h }`. -/
structure View where
  x : ℚ
  y : ℚ
  w : ℚ
  h : ℚ
deriving DecidableEq

/-- Logical canvas size, `grid.w`/`grid.h` from `buildSquareSvgGrid`. -/
structure GridSize where
  w : ℚ
  h : ℚ

/-- `maxZoom = 8`: the zoom-in limit. -/
def maxZoom : ℚ := 8

/-- `vbMinW = grid.w`: zoomed-out limit (full map). -/
def vbMinW (g : GridSize) : ℚ := g.w

/-- `vbMinH = grid.h`. -/
def vbMinH (g : GridSize) : ℚ := g.h

/-- `vbMaxW = grid.w / maxZoom`: smallest viewBox width allowed. -/
def vbMaxW (g : GridSize) : ℚ := g.w / maxZoom

/-- `vbMaxH = grid.h / maxZoom`. -/
def vbMaxH (g : GridSize) : ℚ := g.h / maxZoom

/-- `clamp(n, a, b) = Math.max(a, Math.min(b, n))`. -/
def clamp (n a b : ℚ) : ℚ := max a (min b n)

/-- `clampView()`: clamp `w`/`h` to the zoom bounds, then clamp the origin
so the window stays inside the map (the origin bounds read the already
clamped sizes). -/
def clampView (g : GridSize) (v : View) : View :=
  let w := clamp v.w (vbMaxW g) (vbMinW g)
  let h := clamp v.h (vbMaxH g) (vbMinH g)
  { x := clamp v.x 0 (g.w - w), y := clamp v.y 0 (g.h - h), w := w, h := h }

/-- The pan branch of `onPointerMove` followed by `updateView`: translate
the gesture-start window by the negated pixel delta scaled by
units-per-pixel (current window size over the rendered size, floored at
one pixel), then clamp.  `rw`/`rh` are the client bounding-rect sizes. -/
def panMoveView (g : GridSize) (rw rh : ℚ) (startView : View)
    (startPt cur : ℚ × ℚ) (v : View) : View :=
  let ux := v.w / max 1 rw
  let uy := v.h / max 1 rh
  clampView g
    { v with x := startView.x - (cur.1 - startPt.1) * ux,
             y := startView.y - (cur.2 - startPt.2) * uy }

/-- The pinch branch of `onPointerMove` followed by `updateView`: scale
the gesture-start window by `startDist / max(1, d)`, clamp the sizes,
re-anchor the origin so the gesture-start midpoint (in logical
coordinates) stays under the current midpoint, then clamp.  `d` is the
current inter-pointer distance and `midPx` the midpoint in surface
pixels. -/
def pinchMoveView (g : GridSize) (rw rh : ℚ) (startView : View)
    (startDist : ℚ) (startMidSvg : ℚ × ℚ) (midPx : ℚ × ℚ) (d : ℚ) : View :=
  let scale := startDist / max 1 d
  let w := clamp (startView.w * scale) (vbMaxW g) (vbMinW g)
  let h := clamp (startView.h * scale) (vbMaxH g) (vbMinH g)
  clampView g
    { x := startMidSvg.1 - midPx.1 / max 1 rw * w,
      y := startMidSvg.2 - midPx.2 / max 1 rh * h,
      w := w, h := h }

/-- The clamp invariant of the viewport window: sizes between the zoom
bounds, origin between 0 and canvas minus window, per axis. -/
def InBounds (g : GridSize) (v : View) : Prop :=
  vbMaxW g ≤ v.w ∧ v.w ≤ vbMinW g ∧ vbMaxH g ≤ v.h ∧ v.h ≤ vbMinH g ∧
  0 ≤ v.x ∧ v.x ≤ g.w - v.w ∧ 0 ≤ v.y ∧ v.y ≤ g.h - v.h

/-! ### Concrete stores and blobs used in counterexamples and witnesses -/

/-- A cell grouped into room 1. -/
def cellR1 : Cell := { c := none, n := "", icon := "", roomId := some 1 }

/-- Room 1, owning the single cell `(0, 0)`. -/
def roomR1 : Room :=
  { id := 1, name := "Room R1", kind := "room", c := "#3c6270", n := "",
    icon := "", cells := [((0 : ℤ), (0 : ℤ))] }

/-- A store holding exactly room 1 and its member cell `(0, 0)`. -/
def storeR1 : Store :=
  { cells := fun k => if k = ((0 : ℤ), (0 : ℤ)) then some cellR1 else none,
    rooms := fun i => if i = 1 then some roomR1 else none,
    nextRoomId := 2 }

/-- An import blob that passes the format check but whose cell `(0, 0)`
points at a room that does not exist in its (empty) room mapping. -/
def danglingBlob : Blob :=
  { cols := none, rows := none,
    data := some
      { cells := some fun k => if k = ((0 : ℤ), (0 : ℤ)) then some cellR1 else none,
        rooms := some fun _ => none,
        meta := some 5 } }

/-- A blob missing the required `rooms` mapping field. -/
def blobNoRooms : Blob :=
  { cols := some 50, rows := some 50,
    data := some { cells := some fun _ => none, rooms := none, meta := none } }

/-! ## Viewport lemmas -/

theorem clamp_lower (n a b : ℚ) : a ≤ clamp n a b := le_max_left _ _

theorem clamp_upper (n a b : ℚ) (hab : a ≤ b) : clamp n a b ≤ b :=
  max_le hab (min_le_left _ _)

theorem clamp_idem (n a b : ℚ) : clamp (clamp n a b) a b = clamp n a b := by
  unfold clamp
  rcases le_total a b with h | h <;>
    simp only [max_def, min_def] <;> split_ifs <;> linarith

/-- C9: applying the viewport clamp step twice in succession yields the
same window as applying it once — `clampView` is idempotent (for every
canvas size, even degenerate ones, and every window). -/
theorem clampView_idempotent (g : GridSize) (v : View) :
    clampView g (clampView g v) = clampView g v := by
  simp only [clampView, clamp_idem]

theorem clampView_inBounds (g : GridSize) (hw : 0 ≤ g.w) (hh : 0 ≤ g.h)
    (v : View) : InBounds g (clampView g v) := by
  have h8w : vbMaxW g ≤ vbMinW g := by
    unfold vbMaxW vbMinW maxZoom; linarith
  have h8h : vbMaxH g ≤ vbMinH g := by
    unfold vbMaxH vbMinH maxZoom; linarith
  have hwle : clamp v.w (vbMaxW g) (vbMinW g) ≤ g.w := clamp_upper _ _ _ h8w
  have hhle : clamp v.h (vbMaxH g) (vbMinH g) ≤ g.h := clamp_upper _ _ _ h8h
  refine ⟨clamp_lower _ _ _, clamp_upper _ _ _ h8w, clamp_lower _ _ _,
      clamp_upper _ _ _ h8h, clamp_lower _ _ _, ?_, clamp_lower _ _ _, ?_⟩
  · exact clamp_upper _ _ _ (by linarith)
  · exact clamp_upper _ _ _ (by linarith)

/-- C8: after every viewport mutation (a pan move or a pinch move, each of
which ends in the clamp step), the window satisfies the clamp bounds:
`canvasW/8 ≤ w ≤ canvasW`, `0 ≤ x ≤ canvasW − w`, and analogously on the
other axis. -/
theorem viewport_mutation_inBounds (g : GridSize) (hw : 0 ≤ g.w)
    (hh : 0 ≤ g.h) (rpw rph : ℚ) (startView v : View) (startPt cur : ℚ × ℚ)
    (startDist : ℚ) (startMidSvg midPx : ℚ × ℚ) (d : ℚ) :
    InBounds g (panMoveView g rpw rph startView startPt cur v) ∧
    InBounds g (pinchMoveView g rpw rph startView startDist startMidSvg midPx d) :=
  ⟨clampView_inBounds g hw hh _, clampView_inBounds g hw hh _⟩

/-- Witness for C8 at the spec's own scenario sizes (canvas 1000×1000):
a pan and a pinch move landing inside the clamp bounds. -/
theorem viewport_mutation_inBounds_witness :
    InBounds ⟨1000, 1000⟩
      (panMoveView ⟨1000, 1000⟩ 500 500 ⟨0, 0, 1000, 1000⟩ (0, 0) (30, 40)
        ⟨0, 0, 1000, 1000⟩) ∧
    InBounds ⟨1000, 1000⟩
      (pinchMoveView ⟨1000, 1000⟩ 500 500 ⟨0, 0, 1000, 1000⟩ 100 (200, 200)
        (250, 250) 400) :=
  viewport_mutation_inBounds ⟨1000, 1000⟩ (by norm_num) (by norm_num)
    500 500 ⟨0, 0, 1000, 1000⟩ ⟨0, 0, 1000, 1000⟩ (0, 0) (30, 40) 100
    (200, 200) (250, 250) 400

/-! ## Contiguity: correctness of the BFS in `isContiguous` -/

theorem adjacent_symm {a b : Coord} (h : adjacent a b) : adjacent b a := by
  obtain ⟨a1, a2⟩ := a
  obtain ⟨b1, b2⟩ := b
  simp only [adjacent, neighKeys, List.mem_cons, List.not_mem_nil, or_false,
    Prod.mk.injEq] at h ⊢
  rcases h with ⟨h1, h2⟩ | ⟨h1, h2⟩ | ⟨h1, h2⟩ | ⟨h1, h2⟩ <;> omega

theorem ReachIn.mem_right {set : Finset Coord} {a b : Coord}
    (h : ReachIn set a b) (ha : a ∈ set) : b ∈ set := by
  induction h with
  | refl => exact ha
  | tail _ h2 _ => exact h2.1

theorem ReachIn.symmIn {set : Finset Coord} {a b : Coord} (ha : a ∈ set)
    (h : ReachIn set a b) : ReachIn set b a := by
  induction h with
  | refl => exact Relation.ReflTransGen.refl
  | tail h1 h2 ih =>
      exact Relation.ReflTransGen.head
        ⟨ReachIn.mem_right h1 ha, adjacent_symm h2.2⟩ ih

theorem pushNeighbors_seen_mono (set : Finset Coord) (ns : List Coord) :
    ∀ (q : List Coord) (seen : Finset Coord),
      seen ⊆ (pushNeighbors set ns q seen).2 := by
  induction ns with
  | nil => intro q seen; simp [pushNeighbors]
  | cons n ns ih =>
      intro q seen
      unfold pushNeighbors
      split_ifs with h
      · exact (Finset.subset_insert n seen).trans (ih _ _)
      · exact ih _ _

theorem pushNeighbors_mem_seen (set : Finset Coord) (ns : List Coord) :
    ∀ (q : List Coord) (seen : Finset Coord) (x : Coord),
      x ∈ (pushNeighbors set ns q seen).2 → x ∈ seen ∨ (x ∈ set ∧ x ∈ ns) := by
  induction ns with
  | nil => intro q seen x hx; simp [pushNeighbors] at hx; exact Or.inl hx
  | cons n ns ih =>
      intro q seen x hx
      unfold pushNeighbors at hx
      split_ifs at hx with h
      · rcases ih _ _ _ hx with h1 | ⟨h1, h2⟩
        · rcases Finset.mem_insert.1 h1 with h2 | h2
          · subst h2; exact Or.inr ⟨h.1, List.mem_cons_self _ _⟩
          · exact Or.inl h2
        · exact Or.inr ⟨h1, List.mem_cons_of_mem _ h2⟩
      · rcases ih _ _ _ hx with h1 | ⟨h1, h2⟩
        · exact Or.inl h1
        · exact Or.inr ⟨h1, List.mem_cons_of_mem _ h2⟩

theorem pushNeighbors_queue_mono (set : Finset Coord) (ns : List Coord) :
    ∀ (q : List Coord) (seen : Finset Coord) (x : Coord),
      x ∈ q → x ∈ (pushNeighbors set ns q seen).1 := by
  induction ns with
  | nil => intro q seen x hx; simpa [pushNeighbors] using hx
  | cons n ns ih =>
      intro q seen x hx
      unfold pushNeighbors
      split_ifs with h
      · exact ih _ _ _ (List.mem_append_left _ hx)
      · exact ih _ _ _ hx

theorem pushNeighbors_queue_mem (set : Finset Coord) (ns : List Coord) :
    ∀ (q : List Coord) (seen : Finset Coord) (x : Coord),
      x ∈ (pushNeighbors set ns q seen).1 →
      x ∈ q ∨ x ∈ (pushNeighbors set ns q seen).2 := by
  induction ns with
  | nil => intro q seen x hx; simp [pushNeighbors] at hx ⊢; exact Or.inl hx
  | cons n ns ih =>
      intro q seen x hx
      unfold pushNeighbors at hx ⊢
      split_ifs at hx ⊢ with h
      · rcases ih _ _ _ hx with h1 | h1
        · rcases List.mem_append.1 h1 with h2 | h2
          · exact Or.inl h2
          · refine Or.inr ?_
            have : x ∈ insert n seen := by
              simp at h2; subst h2; exact Finset.mem_insert_self _ _
            exact pushNeighbors_seen_mono set ns _ _ this
        · exact Or.inr h1
      · exact ih _ _ _ hx

theorem pushNeighbors_covers (set : Finset Coord) (ns : List Coord) :
    ∀ (q : List Coord) (seen : Finset Coord) (n : Coord),
      n ∈ ns → n ∈ set → n ∈ (pushNeighbors set ns q seen).2 := by
  induction ns with
  | nil => intro q seen n hn; exact absurd hn (List.not_mem_nil n)
  | cons m ns ih =>
      intro q seen n hn hns
      rcases List.mem_cons.1 hn with h1 | h1
      · subst h1
        unfold pushNeighbors
        split_ifs with h
        · exact pushNeighbors_seen_mono set ns _ _ (Finset.mem_insert_self _ _)
        · have hn_seen : n ∈ seen := by
            by_contra hc
            exact h ⟨hns, hc⟩
          exact pushNeighbors_seen_mono set ns _ _ hn_seen
      · unfold pushNeighbors
        split_ifs with h
        · exact ih _ _ _ h1 hns
        · exact ih _ _ _ h1 hns

theorem pushNeighbors_new_in_queue (set : Finset Coord) (ns : List Coord) :
    ∀ (q : List Coord) (seen : Finset Coord) (x : Coord),
      x ∈ (pushNeighbors set ns q seen).2 →
      x ∈ seen ∨ x ∈ (pushNeighbors set ns q seen).1 := by
  induction ns with
  | nil => intro q seen x hx; simp [pushNeighbors] at hx ⊢; exact Or.inl hx
  | cons n ns ih =>
      intro q seen x hx
      unfold pushNeighbors at hx ⊢
      split_ifs at hx ⊢ with h
      · rcases ih _ _ _ hx with h1 | h1
        · rcases Finset.mem_insert.1 h1 with h2 | h2
          · subst h2
            exact Or.inr (pushNeighbors_queue_mono set ns _ _ _
              (List.mem_append_right _ (List.mem_singleton.2 rfl)))
          · exact Or.inl h2
        · exact Or.inr h1
      · exact ih _ _ _ hx

theorem pushNeighbors_card (set : Finset Coord) (ns : List Coord) :
    ∀ (q : List Coord) (seen : Finset Coord),
      (pushNeighbors set ns q seen).1.length + seen.card =
        q.length + (pushNeighbors set ns q seen).2.card := by
  induction ns with
  | nil => intro q seen; simp [pushNeighbors]
  | cons n ns ih =>
      intro q seen
      unfold pushNeighbors
      split_ifs with h
      · have h1 := ih (q ++ [n]) (insert n seen)
        have h2 : (insert n seen).card = seen.card + 1 :=
          Finset.card_insert_of_not_mem h.2
        have h3 : (q ++ [n]).length = q.length + 1 := by simp
        omega
      · exact ih _ _

theorem bfsLoopF_nil (set : Finset Coord) (fuel : ℕ) (seen : Finset Coord) :
    bfsLoopF set fuel [] seen = seen := by
  cases fuel <;> rfl

theorem bfsLoopF_zero (set : Finset Coord) (q : List Coord)
    (seen : Finset Coord) : bfsLoopF set 0 q seen = seen := by
  cases q <;> rfl

theorem bfsLoopF_succ (set : Finset Coord) (fuel : ℕ) (cur : Coord)
    (q : List Coord) (seen : Finset Coord) :
    bfsLoopF set (fuel + 1) (cur :: q) seen =
      bfsLoopF set fuel (pushNeighbors set (neighKeys cur) q seen).1
        (pushNeighbors set (neighKeys cur) q seen).2 := rfl

theorem bfsLoopF_seen_mono (set : Finset Coord) (fuel : ℕ) :
    ∀ (q : List Coord) (seen : Finset Coord),
      seen ⊆ bfsLoopF set fuel q seen := by
  induction fuel with
  | zero => intro q seen; rw [bfsLoopF_zero]
  | succ fuel ih =>
      intro q seen
      cases q with
      | nil => rw [bfsLoopF_nil]
      | cons cur q =>
          rw [bfsLoopF_succ]
          exact (pushNeighbors_seen_mono set _ _ _).trans (ih _ _)

theorem bfsLoopF_sound (set : Finset Coord) (start : Coord) (fuel : ℕ) :
    ∀ (q : List Coord) (seen : Finset Coord),
      (∀ x ∈ seen, ReachIn set start x) → (∀ x ∈ q, x ∈ seen) →
      ∀ x ∈ bfsLoopF set fuel q seen, ReachIn set start x := by
  induction fuel with
  | zero => intro q seen hseen _ x hx; rw [bfsLoopF_zero] at hx; exact hseen x hx
  | succ fuel ih =>
      intro q seen hseen hq x hx
      cases q with
      | nil => rw [bfsLoopF_nil] at hx; exact hseen x hx
      | cons cur q =>
          rw [bfsLoopF_succ] at hx
          have hcur : cur ∈ seen := hq cur (List.mem_cons_self _ _)
          have hseen2 : ∀ y ∈ (pushNeighbors set (neighKeys cur) q seen).2,
              ReachIn set start y := by
            intro y hy
            rcases pushNeighbors_mem_seen set _ _ _ _ hy with h1 | ⟨h1, h2⟩
            · exact hseen y h1
            · exact Relation.ReflTransGen.tail (hseen cur hcur) ⟨h1, h2⟩
          have hq2 : ∀ y ∈ (pushNeighbors set (neighKeys cur) q seen).1,
              y ∈ (pushNeighbors set (neighKeys cur) q seen).2 := by
            intro y hy
            rcases pushNeighbors_queue_mem set _ _ _ _ hy with h1 | h1
            · exact pushNeighbors_seen_mono set _ _ _
                (hq y (List.mem_cons_of_mem _ h1))
            · exact h1
          exact ih _ _ hseen2 hq2 x hx

theorem bfsLoopF_closed (set : Finset Coord) (fuel : ℕ) :
    ∀ (q : List Coord) (seen : Finset Coord),
      (∀ x ∈ seen, x ∉ q → ∀ n ∈ neighKeys x, n ∈ set → n ∈ seen) →
      (set \ seen).card + q.length ≤ fuel →
      ∀ x ∈ bfsLoopF set fuel q seen, ∀ n ∈ neighKeys x, n ∈ set →
        n ∈ bfsLoopF set fuel q seen := by
  induction fuel with
  | zero =>
      intro q seen hinv hfuel x hx n hn hns
      have hq : q = [] := List.length_eq_zero.1 (by omega)
      subst hq
      rw [bfsLoopF_nil] at hx ⊢
      exact hinv x hx (List.not_mem_nil x) n hn hns
  | succ fuel ih =>
      intro q seen hinv hfuel x hx n hn hns
      cases q with
      | nil =>
          rw [bfsLoopF_nil] at hx ⊢
          exact hinv x hx (List.not_mem_nil x) n hn hns
      | cons cur q =>
          rw [bfsLoopF_succ] at hx ⊢
          set q2 := (pushNeighbors set (neighKeys cur) q seen).1 with hq2def
          set seen2 := (pushNeighbors set (neighKeys cur) q seen).2 with hseen2def
          have hmono : seen ⊆ seen2 := pushNeighbors_seen_mono set _ _ _
          have hsubA : seen2 \ seen ⊆ set \ seen := by
            intro y hy
            rcases Finset.mem_sdiff.1 hy with ⟨hy1, hy2⟩
            rcases pushNeighbors_mem_seen set _ _ _ _ hy1 with h1 | ⟨h1, _⟩
            · exact absurd h1 hy2
            · exact Finset.mem_sdiff.2 ⟨h1, hy2⟩
          have hsd : set \ seen2 = (set \ seen) \ (seen2 \ seen) := by
            ext y
            simp only [Finset.mem_sdiff]
            constructor
            · intro ⟨hy1, hy2⟩
              exact ⟨⟨hy1, fun hc => hy2 (hmono hc)⟩, fun hc => hy2 hc.1⟩
            · intro ⟨⟨hy1, hy2⟩, hy3⟩
              exact ⟨hy1, fun hc => hy3 ⟨hc, hy2⟩⟩
          have hcard1 : (set \ seen2).card = (set \ seen).card - (seen2 \ seen).card := by
            rw [hsd, Finset.card_sdiff hsubA]
          have hcard2 : (seen2 \ seen).card ≤ (set \ seen).card :=
            Finset.card_le_card hsubA
          have hcard3 : (seen2 \ seen).card = seen2.card - seen.card :=
            Finset.card_sdiff hmono
          have hcard4 : seen.card ≤ seen2.card := Finset.card_le_card hmono
          have hcard5 : q2.length + seen.card = q.length + seen2.card :=
            pushNeighbors_card set _ _ _
          have hlen : (cur :: q).length = q.length + 1 := rfl
          have hfuel2 : (set \ seen2).card + q2.length ≤ fuel := by omega
          have hinv2 : ∀ y ∈ seen2, y ∉ q2 → ∀ m ∈ neighKeys y, m ∈ set →
              m ∈ seen2 := by
            intro y hy hyq m hm hms
            by_cases hyc : y = cur
            · subst hyc
              exact pushNeighbors_covers set _ _ _ _ hm hms
            · have hyseen : y ∈ seen := by
                rcases pushNeighbors_new_in_queue set _ _ _ _ hy with h1 | h1
                · exact h1
                · exact absurd h1 hyq
              have hynq : y ∉ q := fun hc =>
                hyq (pushNeighbors_queue_mono set _ _ _ _ hc)
              have : y ∉ cur :: q := by
                intro hc
                rcases List.mem_cons.1 hc with h1 | h1
                · exact hyc h1
                · exact hynq h1
              exact hmono (hinv y hyseen this m hm hms)
          exact ih _ _ hinv2 hfuel2 x hx n hn hns

theorem bfsLoopF_mem (set : Finset Coord) (start : Coord) (hs : start ∈ set)
    (fuel : ℕ) (hf : (set \ {start}).card + 1 ≤ fuel) (x : Coord) :
    x ∈ bfsLoopF set fuel [start] {start} ↔ ReachIn set start x := by
  constructor
  · intro hx
    refine bfsLoopF_sound set start fuel [start] {start} ?_ ?_ x hx
    · intro y hy
      rw [Finset.mem_singleton] at hy
      subst hy
      exact Relation.ReflTransGen.refl
    · intro y hy
      simp only [List.mem_singleton] at hy
      subst hy
      exact Finset.mem_singleton_self _
  · intro hx
    have hstart : start ∈ bfsLoopF set fuel [start] {start} :=
      bfsLoopF_seen_mono set fuel [start] {start} (Finset.mem_singleton_self _)
    have hclosed := bfsLoopF_closed set fuel [start] {start}
      (by
        intro y hy hyq
        rw [Finset.mem_singleton] at hy
        subst hy
        exact absurd (List.mem_singleton.2 rfl) hyq)
      hf
    induction hx with
    | refl => exact hstart
    | tail _ h2 ih => exact hclosed _ ih _ h2.2 h2.1

/-- C3: `isContiguous` decides whether the 4-neighbour graph induced on
the staged key set has exactly one connected component (some staged cell
reaches all staged cells through staged cells); for a set of at most one
key — including the empty set, which the spec calls vacuously
contiguous — it returns `true`. -/
theorem isContiguous_correct (keys : List Coord) :
    (keys.length ≤ 1 → isContiguous keys = true) ∧
    (keys ≠ [] → (isContiguous keys = true ↔ oneComponent keys.toFinset)) := by
  constructor
  · intro h
    unfold isContiguous
    rw [if_pos h]
  · intro hne
    match keys with
    | [a] =>
        have h1 : isContiguous [a] = true := by
          unfold isContiguous
          rw [if_pos (by simp)]
        rw [h1]
        simp only [true_iff]
        refine ⟨a, by simp, ?_⟩
        intro b hb
        simp only [List.toFinset_cons, List.toFinset_nil, insert_emptyc_eq,
          Finset.mem_singleton] at hb
        subst hb
        exact Relation.ReflTransGen.refl
    | a :: b :: rest =>
        have hlen : ¬ (a :: b :: rest).length ≤ 1 := by simp
        have hEq : isContiguous (a :: b :: rest) =
            ((bfsLoopF (a :: b :: rest).toFinset (a :: b :: rest).length
              [a] {a}).card == (a :: b :: rest).toFinset.card) := by
          unfold isContiguous
          rw [if_neg hlen]
        rw [hEq]
        have hamem : a ∈ (a :: b :: rest).toFinset := by simp
        have hcard_le : (a :: b :: rest).toFinset.card ≤
            (a :: b :: rest).length := List.toFinset_card_le _
        have hcard_pos : 1 ≤ (a :: b :: rest).toFinset.card :=
          Finset.card_pos.2 ⟨a, hamem⟩
        have hsdcard : ((a :: b :: rest).toFinset \ {a}).card =
            (a :: b :: rest).toFinset.card - 1 := by
          rw [Finset.card_sdiff (Finset.singleton_subset_iff.2 hamem)]
          simp
        have hf : ((a :: b :: rest).toFinset \ {a}).card + 1 ≤
            (a :: b :: rest).length := by omega
        have hmem := bfsLoopF_mem (a :: b :: rest).toFinset a hamem
          (a :: b :: rest).length hf
        have hsub : bfsLoopF (a :: b :: rest).toFinset
            (a :: b :: rest).length [a] {a} ⊆ (a :: b :: rest).toFinset := by
          intro x hx
          exact ReachIn.mem_right ((hmem x).1 hx) hamem
        rw [beq_iff_eq]
        constructor
        · intro hcards
          have hset : bfsLoopF (a :: b :: rest).toFinset
              (a :: b :: rest).length [a] {a} = (a :: b :: rest).toFinset :=
            Finset.eq_of_subset_of_card_le hsub (le_of_eq hcards.symm)
          refine ⟨a, hamem, ?_⟩
          intro y hy
          rw [← hset] at hy
          exact (hmem y).1 hy
        · rintro ⟨c, hc, hall⟩
          have hset : bfsLoopF (a :: b :: rest).toFinset
              (a :: b :: rest).length [a] {a} = (a :: b :: rest).toFinset := by
            refine Finset.Subset.antisymm hsub ?_
            intro y hy
            refine (hmem y).2 ?_
            exact Relation.ReflTransGen.trans
              (ReachIn.symmIn hc (hall a hamem)) (hall y hy)
          rw [hset]

/-- C3 (counterexample): on the empty key set the claimed equivalence is
violated in the strict reading: `isContiguous` returns `true` (the spec's
vacuous clause) while the graph induced on the empty set does not have
exactly one connected component — it has none. -/
theorem isContiguous_empty_counterexample :
    isContiguous ([] : List Coord) = true ∧
    ¬ oneComponent (([] : List Coord).toFinset) := by
  constructor
  · rfl
  · rintro ⟨a, ha, _⟩
    simp at ha

/-- Witness for C3: instantiated at a two-cell adjacent stage, whose BFS
verdict coincides with one-componentness. -/
theorem isContiguous_correct_witness :
    isContiguous [((0 : ℤ), (0 : ℤ)), (0, 1)] = true ↔
      oneComponent ([((0 : ℤ), (0 : ℤ)), (0, 1)].toFinset) :=
  (isContiguous_correct [((0 : ℤ), (0 : ℤ)), (0, 1)]).2 (by decide)

/-! ## Basic store lemmas -/

theorem updCells_self (f : Coord → Option Cell) (k : Coord) (v : Cell) :
    updCells f k v k = some v := by simp [updCells]

theorem updCells_other (f : Coord → Option Cell) (k : Coord) (v : Cell)
    (k2 : Coord) (h : k2 ≠ k) : updCells f k v k2 = f k2 := by
  simp [updCells, h]

theorem ensureCell_cells_eq (s : Store) (k k2 : Coord) :
    (ensureCell s k).1.cells k2 =
      if k2 = k then some ((s.cells k).getD defaultCell) else s.cells k2 := by
  unfold ensureCell
  cases h : s.cells k with
  | none => simp [updCells]
  | some cell =>
      simp only [Option.getD_some]
      split_ifs with h2
      · rw [h2, h]
      · rfl

theorem ensureCell_rooms (s : Store) (k : Coord) :
    (ensureCell s k).1.rooms = s.rooms := by
  unfold ensureCell
  cases h : s.cells k <;> rfl

theorem ensureCell_next (s : Store) (k : Coord) :
    (ensureCell s k).1.nextRoomId = s.nextRoomId := by
  unfold ensureCell
  cases h : s.cells k <;> rfl

theorem ensureCell_snd (s : Store) (k : Coord) :
    (ensureCell s k).2 = (s.cells k).getD defaultCell := by
  unfold ensureCell
  cases h : s.cells k <;> rfl

theorem ensureCell_found {s : Store} {k : Coord} {cell : Cell}
    (h : s.cells k = some cell) : ensureCell s k = (s, cell) := by
  unfold ensureCell
  rw [h]

theorem ensureCell_keeps {s : Store} {k k2 : Coord} {cell : Cell}
    (h : s.cells k2 = some cell) : (ensureCell s k).1.cells k2 = some cell := by
  rw [ensureCell_cells_eq]
  split_ifs with h2
  · subst h2; rw [h]; rfl
  · exact h

/-! ## `anyInRoom` -/

theorem anyInRoom_nil (s : Store) : anyInRoom s [] = (s, none) := rfl

theorem anyInRoom_cons (s : Store) (k : Coord) (ks : List Coord) :
    anyInRoom s (k :: ks) =
      match (ensureCell s k).2.roomId with
      | some rid => ((ensureCell s k).1, some rid)
      | none => anyInRoom (ensureCell s k).1 ks := rfl

theorem anyInRoom_rooms (ks : List Coord) :
    ∀ s : Store, (anyInRoom s ks).1.rooms = s.rooms := by
  induction ks with
  | nil => intro s; rfl
  | cons k ks ih =>
      intro s
      rw [anyInRoom_cons]
      cases hrid : (ensureCell s k).2.roomId with
      | none => rw [ih, ensureCell_rooms]
      | some rid => exact ensureCell_rooms s k

theorem anyInRoom_next (ks : List Coord) :
    ∀ s : Store, (anyInRoom s ks).1.nextRoomId = s.nextRoomId := by
  induction ks with
  | nil => intro s; rfl
  | cons k ks ih =>
      intro s
      rw [anyInRoom_cons]
      cases hrid : (ensureCell s k).2.roomId with
      | none => rw [ih, ensureCell_next]
      | some rid => exact ensureCell_next s k

theorem anyInRoom_cells (ks : List Coord) :
    ∀ (s : Store) (k : Coord),
      (anyInRoom s ks).1.cells k = s.cells k ∨
        (k ∈ ks ∧ s.cells k = none ∧
          (anyInRoom s ks).1.cells k = some defaultCell) := by
  induction ks with
  | nil => intro s k; exact Or.inl rfl
  | cons a ks ih =>
      intro s k
      rw [anyInRoom_cons]
      have hself : (ensureCell s a).1.cells k = s.cells k ∨
          (k = a ∧ s.cells k = none ∧
            (ensureCell s a).1.cells k = some defaultCell) := by
        have hcell := ensureCell_cells_eq s a k
        by_cases hka : k = a
        · subst hka
          rw [if_pos rfl] at hcell
          cases hs : s.cells k with
          | none =>
              rw [hs, Option.getD_none] at hcell
              exact Or.inr ⟨rfl, rfl, hcell⟩
          | some cell =>
              rw [hs, Option.getD_some] at hcell
              exact Or.inl hcell
        · rw [if_neg hka] at hcell
          exact Or.inl hcell
      cases hrid : (ensureCell s a).2.roomId with
      | some rid =>
          simp only []
          rcases hself with h1 | ⟨h1, h2, h3⟩
          · exact Or.inl h1
          · exact Or.inr ⟨by rw [h1]; exact List.mem_cons_self _ _, h2, h3⟩
      | none =>
          simp only []
          rcases ih (ensureCell s a).1 k with h1 | ⟨h1, h2, h3⟩
          · rw [h1]
            rcases hself with h4 | ⟨h4, h5, h6⟩
            · exact Or.inl h4
            · exact Or.inr ⟨by rw [h4]; exact List.mem_cons_self _ _, h5, h6⟩
          · rcases hself with h4 | ⟨h4, h5, h6⟩
            · rw [h4] at h2
              exact Or.inr ⟨List.mem_cons_of_mem _ h1, h2, h3⟩
            · rw [h6] at h2
              exact absurd h2 (by simp)

theorem anyInRoom_keeps (ks : List Coord) (s : Store) (k : Coord) (cell : Cell)
    (h : s.cells k = some cell) : (anyInRoom s ks).1.cells k = some cell := by
  rcases anyInRoom_cells ks s k with h1 | ⟨_, h2, _⟩
  · rw [h1, h]
  · rw [h] at h2; exact absurd h2 (by simp)

theorem anyInRoom_none_iff (ks : List Coord) :
    ∀ s : Store,
      (anyInRoom s ks).2 = none ↔
        ∀ k ∈ ks, ∀ cell, s.cells k = some cell → cell.roomId = none := by
  induction ks with
  | nil =>
      intro s
      simp [anyInRoom_nil]
  | cons a ks ih =>
      intro s
      rw [anyInRoom_cons]
      cases hrid : (ensureCell s a).2.roomId with
      | some rid =>
          simp only []
          constructor
          · intro h; exact absurd h (by simp)
          · intro h
            exfalso
            rw [ensureCell_snd s a] at hrid
            cases hs : s.cells a with
            | none =>
                simp only [hs, Option.getD_none] at hrid
                exact absurd hrid (by simp [defaultCell])
            | some cell =>
                simp only [hs, Option.getD_some] at hrid
                have := h a (List.mem_cons_self _ _) cell hs
                rw [this] at hrid
                exact absurd hrid (by simp)
      | none =>
          simp only []
          rw [ih]
          have hfree : ∀ cell, s.cells a = some cell → cell.roomId = none := by
            intro cell hs
            rw [ensureCell_snd s a, hs, Option.getD_some] at hrid
            exact hrid
          constructor
          · intro h k hk cell hcell
            rcases List.mem_cons.1 hk with h1 | h1
            · subst h1; exact hfree cell hcell
            · by_cases hka : k = a
              · subst hka; exact hfree cell hcell
              · refine h k h1 cell ?_
                rw [ensureCell_cells_eq, if_neg hka]
                exact hcell
          · intro h k hk cell hcell
            by_cases hka : k = a
            · subst hka
              rw [ensureCell_cells_eq, if_pos rfl] at hcell
              have hcd : cell = (s.cells k).getD defaultCell := by
                injection hcell.symm
              rw [hcd, ← ensureCell_snd s k]
              exact hrid
            · rw [ensureCell_cells_eq, if_neg hka] at hcell
              exact h k (List.mem_cons_of_mem _ hk) cell hcell

/-! ## C2: room-creation atomicity -/

/-- C2 (counterexample): with cell `(0,0)` already grouped into room 1 and
cell `(0,1)` untouched, staging the contiguous pair `[(0,1), (0,0)]` makes
`createRoomFromStage` fail on the already-grouped check, yet the failing
call has extended the cells mapping with a default record for `(0,1)` (the
`ensureCell` walk inside `anyInRoom`), so the pre- and post-call cells
mappings are not bit-identical. -/
theorem createRoom_failure_counterexample :
    storeR1.cells ((0 : ℤ), (0 : ℤ)) = some cellR1 ∧
    cellR1.roomId = some 1 ∧
    isContiguous [((0 : ℤ), (1 : ℤ)), (0, 0)] = true ∧
    (createRoomFromStage [((0 : ℤ), (1 : ℤ)), (0, 0)] storeR1).rooms 1 =
      some roomR1 ∧
    (createRoomFromStage [((0 : ℤ), (1 : ℤ)), (0, 0)] storeR1).cells
        ((0 : ℤ), (1 : ℤ)) ≠ storeR1.cells ((0 : ℤ), (1 : ℤ)) := by
  decide

theorem anyInRoom_fst_spec (ks : List Coord) (s : Store) :
    (anyInRoom s ks).1.rooms = s.rooms ∧
    (anyInRoom s ks).1.nextRoomId = s.nextRoomId ∧
    (∀ k cell, s.cells k = some cell → (anyInRoom s ks).1.cells k = some cell) ∧
    (∀ k, (anyInRoom s ks).1.cells k ≠ s.cells k →
        k ∈ ks ∧ s.cells k = none ∧
        (anyInRoom s ks).1.cells k = some defaultCell) :=
  ⟨anyInRoom_rooms ks s, anyInRoom_next ks s,
   fun k cell h => anyInRoom_keeps ks s k cell h,
   fun k h => by
     rcases anyInRoom_cells ks s k with h1 | h1
     · exact absurd h1 h
     · exact h1⟩

/-- C2 (amended): if `createRoom` fails for any reason (empty stage,
non-contiguous stage, or a staged cell already grouped), the rooms mapping
and the room-id counter are bit-identical to their pre-call state, and
every pre-existing cell record is bit-identical to its pre-call state; the
cells mapping itself may differ only by default-valued records lazily
created for staged keys by the already-grouped check. -/
theorem createRoom_failure_atomic (staged : List Coord) (s : Store)
    (hfail : staged = [] ∨ isContiguous staged = false ∨
      ∃ k ∈ staged, ∃ cell, s.cells k = some cell ∧ cell.roomId ≠ none) :
    (createRoomFromStage staged s).rooms = s.rooms ∧
    (createRoomFromStage staged s).nextRoomId = s.nextRoomId ∧
    (∀ k cell, s.cells k = some cell →
        (createRoomFromStage staged s).cells k = some cell) ∧
    (∀ k, (createRoomFromStage staged s).cells k ≠ s.cells k →
        k ∈ staged ∧ s.cells k = none ∧
        (createRoomFromStage staged s).cells k = some defaultCell) := by
  by_cases h1 : staged.isEmpty = true
  · have hres : createRoomFromStage staged s = s := by
      unfold createRoomFromStage
      rw [if_pos h1]
    rw [hres]
    exact ⟨rfl, rfl, fun k cell h => h, fun k h => absurd rfl h⟩
  · by_cases h2 : (!(isContiguous staged)) = true
    · have hres : createRoomFromStage staged s = s := by
        unfold createRoomFromStage
        rw [if_neg h1, if_pos h2]
      rw [hres]
      exact ⟨rfl, rfl, fun k cell h => h, fun k h => absurd rfl h⟩
    · have h3 : ∃ k ∈ staged, ∃ cell, s.cells k = some cell ∧
          cell.roomId ≠ none := by
        rcases hfail with hf | hf | hf
        · exact absurd (by rw [hf]; rfl) h1
        · exact absurd (by rw [hf]; rfl) h2
        · exact hf
      have hnone : (anyInRoom s staged).2 ≠ none := by
        intro hc
        rw [anyInRoom_none_iff] at hc
        obtain ⟨k, hk, cell, hcell, hrid⟩ := h3
        exact hrid (hc k hk cell hcell)
      obtain ⟨rid, hrid⟩ : ∃ r, (anyInRoom s staged).2 = some r := by
        cases hx : (anyInRoom s staged).2 with
        | none => exact absurd hx hnone
        | some r => exact ⟨r, rfl⟩
      have hres : createRoomFromStage staged s = (anyInRoom s staged).1 := by
        unfold createRoomFromStage
        rw [if_neg h1, if_neg h2]
        simp only [hrid]
      rw [hres]
      exact anyInRoom_fst_spec staged s

/-- Witness for C2 (amended): a non-contiguous two-cell stage on the empty
store, where the failing call leaves rooms, counter and existing cells
untouched. -/
theorem createRoom_failure_atomic_witness :
    (createRoomFromStage [((0 : ℤ), (0 : ℤ)), (2, 0)] emptyStore).rooms =
      emptyStore.rooms ∧
    (createRoomFromStage [((0 : ℤ), (0 : ℤ)), (2, 0)] emptyStore).nextRoomId =
      emptyStore.nextRoomId ∧
    (∀ k cell, emptyStore.cells k = some cell →
        (createRoomFromStage [((0 : ℤ), (0 : ℤ)), (2, 0)] emptyStore).cells k =
          some cell) ∧
    (∀ k, (createRoomFromStage [((0 : ℤ), (0 : ℤ)), (2, 0)] emptyStore).cells k ≠
          emptyStore.cells k →
        k ∈ [((0 : ℤ), (0 : ℤ)), (2, 0)] ∧ emptyStore.cells k = none ∧
        (createRoomFromStage [((0 : ℤ), (0 : ℤ)), (2, 0)] emptyStore).cells k =
          some defaultCell) :=
  createRoom_failure_atomic [((0 : ℤ), (0 : ℤ)), (2, 0)] emptyStore
    (Or.inr (Or.inl (by decide)))

/-! ## `clearRoomIds`, `assignRoomIds`, `dissolveRoom` -/

theorem clearRoomIds_cons (s : Store) (a : Coord) (ks : List Coord) :
    clearRoomIds s (a :: ks) = clearRoomIds { (ensureCell s a).1 with cells := updCells (ensureCell s a).1.cells a { (ensureCell s a).2 with roomId := none } } ks := rfl

theorem clearRoomIds_rooms (ks : List Coord) :
    ∀ s : Store, (clearRoomIds s ks).rooms = s.rooms := by
  induction ks with
  | nil => intro s; rfl
  | cons a ks ih =>
      intro s
      rw [clearRoomIds_cons, ih]
      show (ensureCell s a).1.rooms = s.rooms
      exact ensureCell_rooms s a

theorem clearRoomIds_next (ks : List Coord) :
    ∀ s : Store, (clearRoomIds s ks).nextRoomId = s.nextRoomId := by
  induction ks with
  | nil => intro s; rfl
  | cons a ks ih =>
      intro s
      rw [clearRoomIds_cons, ih]
      show (ensureCell s a).1.nextRoomId = s.nextRoomId
      exact ensureCell_next s a

theorem clearRoomIds_cells (ks : List Coord) :
    ∀ (s : Store) (k : Coord),
      (clearRoomIds s ks).cells k =
        if k ∈ ks then some { (s.cells k).getD defaultCell with roomId := none }
        else s.cells k := by
  induction ks with
  | nil => intro s k; simp [clearRoomIds]
  | cons a ks ih =>
      intro s k
      rw [clearRoomIds_cons, ih]
      have hs1 : updCells (ensureCell s a).1.cells a
          { (ensureCell s a).2 with roomId := none } k =
          if k = a then some { (s.cells a).getD defaultCell with roomId := none }
          else s.cells k := by
        by_cases hka : k = a
        · subst hka
          rw [updCells_self, if_pos rfl, ensureCell_snd]
        · rw [updCells_other _ _ _ _ hka, if_neg hka, ensureCell_cells_eq,
            if_neg hka]
      show (if k ∈ ks then some { (updCells (ensureCell s a).1.cells a
          { (ensureCell s a).2 with roomId := none } k).getD defaultCell
            with roomId := none }
        else updCells (ensureCell s a).1.cells a
          { (ensureCell s a).2 with roomId := none } k) = _
      rw [hs1]
      by_cases hks : k ∈ ks
      · rw [if_pos hks, if_pos (List.mem_cons_of_mem _ hks)]
        by_cases hka : k = a
        · subst hka
          rw [if_pos rfl, Option.getD_some]
        · rw [if_neg hka]
      · rw [if_neg hks]
        by_cases hka : k = a
        · subst hka
          rw [if_pos rfl, if_pos (List.mem_cons_self _ _)]
        · rw [if_neg hka, if_neg (by simp [hka, hks] : ¬ k ∈ a :: ks)]

theorem assignRoomIds_cons (s : Store) (id : ℕ) (a : Coord) (ks : List Coord) :
    assignRoomIds s id (a :: ks) = assignRoomIds { (ensureCell s a).1 with cells := updCells (ensureCell s a).1.cells a { (ensureCell s a).2 with roomId := some id } } id ks := rfl

theorem assignRoomIds_rooms (ks : List Coord) (id : ℕ) :
    ∀ s : Store, (assignRoomIds s id ks).rooms = s.rooms := by
  induction ks with
  | nil => intro s; rfl
  | cons a ks ih =>
      intro s
      rw [assignRoomIds_cons, ih]
      show (ensureCell s a).1.rooms = s.rooms
      exact ensureCell_rooms s a

theorem assignRoomIds_next (ks : List Coord) (id : ℕ) :
    ∀ s : Store, (assignRoomIds s id ks).nextRoomId = s.nextRoomId := by
  induction ks with
  | nil => intro s; rfl
  | cons a ks ih =>
      intro s
      rw [assignRoomIds_cons, ih]
      show (ensureCell s a).1.nextRoomId = s.nextRoomId
      exact ensureCell_next s a

theorem assignRoomIds_cells (ks : List Coord) (id : ℕ) :
    ∀ (s : Store) (k : Coord),
      (assignRoomIds s id ks).cells k =
        if k ∈ ks then
          some { (s.cells k).getD defaultCell with roomId := some id }
        else s.cells k := by
  induction ks with
  | nil => intro s k; simp [assignRoomIds]
  | cons a ks ih =>
      intro s k
      rw [assignRoomIds_cons, ih]
      have hs1 : updCells (ensureCell s a).1.cells a
          { (ensureCell s a).2 with roomId := some id } k =
          if k = a then
            some { (s.cells a).getD defaultCell with roomId := some id }
          else s.cells k := by
        by_cases hka : k = a
        · subst hka
          rw [updCells_self, if_pos rfl, ensureCell_snd]
        · rw [updCells_other _ _ _ _ hka, if_neg hka, ensureCell_cells_eq,
            if_neg hka]
      show (if k ∈ ks then some { (updCells (ensureCell s a).1.cells a
          { (ensureCell s a).2 with roomId := some id } k).getD defaultCell
            with roomId := some id }
        else updCells (ensureCell s a).1.cells a
          { (ensureCell s a).2 with roomId := some id } k) = _
      rw [hs1]
      by_cases hks : k ∈ ks
      · rw [if_pos hks, if_pos (List.mem_cons_of_mem _ hks)]
        by_cases hka : k = a
        · subst hka
          rw [if_pos rfl, Option.getD_some]
        · rw [if_neg hka]
      · rw [if_neg hks]
        by_cases hka : k = a
        · subst hka
          rw [if_pos rfl, if_pos (List.mem_cons_self _ _)]
        · rw [if_neg hka, if_neg (by simp [hka, hks] : ¬ k ∈ a :: ks)]

theorem updRooms_self (f : ℕ → Option Room) (i : ℕ) (v : Room) :
    updRooms f i v i = some v := by simp [updRooms]

theorem updRooms_other (f : ℕ → Option Room) (i : ℕ) (v : Room) (i2 : ℕ)
    (h : i2 ≠ i) : updRooms f i v i2 = f i2 := by simp [updRooms, h]

theorem eraseRoom_self (f : ℕ → Option Room) (i : ℕ) : eraseRoom f i i = none := by
  simp [eraseRoom]

theorem eraseRoom_other (f : ℕ → Option Room) (i : ℕ) (i2 : ℕ) (h : i2 ≠ i) :
    eraseRoom f i i2 = f i2 := by simp [eraseRoom, h]

theorem dissolveRoom_not_found {s : Store} {rid : ℕ} (h : s.rooms rid = none) :
    dissolveRoom rid s = s := by
  unfold dissolveRoom
  rw [h]

theorem dissolveRoom_spec {s : Store} {rid : ℕ} {room : Room}
    (h : s.rooms rid = some room) :
    (dissolveRoom rid s).rooms = eraseRoom s.rooms rid ∧
    (dissolveRoom rid s).nextRoomId = s.nextRoomId ∧
    ∀ k, (dissolveRoom rid s).cells k =
      if k ∈ room.cells then
        some { (s.cells k).getD defaultCell with roomId := none }
      else s.cells k := by
  have hres : dissolveRoom rid s =
      { clearRoomIds s room.cells with
        rooms := eraseRoom (clearRoomIds s room.cells).rooms rid } := by
    unfold dissolveRoom
    rw [h]
  rw [hres]
  refine ⟨?_, ?_, ?_⟩
  · show eraseRoom (clearRoomIds s room.cells).rooms rid = eraseRoom s.rooms rid
    rw [clearRoomIds_rooms]
  · show (clearRoomIds s room.cells).nextRoomId = s.nextRoomId
    rw [clearRoomIds_next]
  · intro k
    show (clearRoomIds s room.cells).cells k = _
    rw [clearRoomIds_cells]

/-- C5: for a store containing room `R` (selected through one of its member
cells, which is how the delete button resolves it), `deleteRoom` performs
exactly `dissolveRoom R.id`; that common mutation clears `roomId` on every
member cell while transferring none of the room's colour/icon/notes onto
them, leaves every non-member cell untouched, and deletes exactly `R`'s
room record. -/
theorem dissolve_delete_equiv (s : Store) (k : Coord) (cell : Cell)
    (rid : ℕ) (room : Room) (hcell : s.cells k = some cell)
    (hrid : cell.roomId = some rid) (hroom : s.rooms rid = some room)
    (hid : room.id = rid) :
    deleteCurrentRoom (some k) s = dissolveRoom rid s ∧
    (dissolveRoom rid s).rooms rid = none ∧
    (∀ r2, r2 ≠ rid → (dissolveRoom rid s).rooms r2 = s.rooms r2) ∧
    (∀ k2, k2 ∉ room.cells → (dissolveRoom rid s).cells k2 = s.cells k2) ∧
    (∀ k2 ∈ room.cells, (dissolveRoom rid s).cells k2 =
        some { (s.cells k2).getD defaultCell with roomId := none }) := by
  obtain ⟨hrooms, hnextD, hcells⟩ := dissolveRoom_spec hroom
  refine ⟨?_, ?_, ?_, ?_, ?_⟩
  · simp only [deleteCurrentRoom, getCurrentRoomS, getCurrentCellS,
      ensureCell_found hcell, hrid, hroom, hid]
  · rw [hrooms, eraseRoom_self]
  · intro r2 h2
    rw [hrooms, eraseRoom_other _ _ _ h2]
  · intro k2 h2
    rw [hcells, if_neg h2]
  · intro k2 h2
    rw [hcells, if_pos h2]

/-- Witness for C5: instantiated at `storeR1` and its single-member room 1. -/
theorem dissolve_delete_equiv_witness :
    deleteCurrentRoom (some ((0 : ℤ), (0 : ℤ))) storeR1 =
      dissolveRoom 1 storeR1 ∧
    (dissolveRoom 1 storeR1).rooms 1 = none ∧
    (∀ r2, r2 ≠ 1 → (dissolveRoom 1 storeR1).rooms r2 = storeR1.rooms r2) ∧
    (∀ k2, k2 ∉ roomR1.cells →
        (dissolveRoom 1 storeR1).cells k2 = storeR1.cells k2) ∧
    (∀ k2 ∈ roomR1.cells, (dissolveRoom 1 storeR1).cells k2 =
        some { (storeR1.cells k2).getD defaultCell with roomId := none }) :=
  dissolve_delete_equiv storeR1 ((0 : ℤ), (0 : ℤ)) cellR1 1 roomR1
    (by decide) (by decide) (by decide) (by decide)

/-! ## C1: cell-level mutation of grouped cells -/

theorem applyColor_room_cells (s : Store) (k : Coord) (v : String) :
    (applyColor EditTarget.room (some k) v s).cells =
      (ensureCell s k).1.cells := by
  simp only [applyColor]
  split
  · rfl
  · split
    · rfl
    · rfl

theorem applyIcon_room_cells (s : Store) (k : Coord) (v : String) :
    (applyIcon EditTarget.room (some k) v s).cells =
      (ensureCell s k).1.cells := by
  simp only [applyIcon]
  split
  · rfl
  · split
    · rfl
    · rfl

theorem applyNotes_room_cells (s : Store) (k : Coord) (v : String) :
    (applyNotes EditTarget.room (some k) v s).cells =
      (ensureCell s k).1.cells := by
  simp only [applyNotes]
  split
  · rfl
  · split
    · rfl
    · rfl

theorem applyColor_cell_cells (s : Store) (k : Coord) (v : String) :
    (applyColor EditTarget.cell (some k) v s).cells k =
      some { (s.cells k).getD defaultCell with c := some v } := by
  simp only [applyColor]
  show updCells (ensureCell s k).1.cells k
    ({ (ensureCell s k).2 with c := some v }) k = _
  rw [updCells_self, ensureCell_snd]

theorem applyIcon_cell_cells (s : Store) (k : Coord) (v : String) :
    (applyIcon EditTarget.cell (some k) v s).cells k =
      some { (s.cells k).getD defaultCell with icon := v } := by
  simp only [applyIcon]
  show updCells (ensureCell s k).1.cells k
    ({ (ensureCell s k).2 with icon := v }) k = _
  rw [updCells_self, ensureCell_snd]

theorem applyNotes_cell_cells (s : Store) (k : Coord) (v : String) :
    (applyNotes EditTarget.cell (some k) v s).cells k =
      some { (s.cells k).getD defaultCell with n := v } := by
  simp only [applyNotes]
  show updCells (ensureCell s k).1.cells k
    ({ (ensureCell s k).2 with n := v }) k = _
  rw [updCells_self, ensureCell_snd]

/-- C1 (counterexample): cell `(0,0)` of `storeR1` is grouped
(`roomId = 1`), yet `applyColor` invoked with the cell edit target — a
state reachable in the source, since Escape flips `editTarget` back to
`"cell"` while keeping the grouped selection — overwrites the cell's own
colour field instead of failing as a blocked no-op; no grouped-cell guard
exists in `applyColor`/`applyIcon`/`applyNotes`. -/
theorem cellOps_blocked_counterexample :
    storeR1.cells ((0 : ℤ), (0 : ℤ)) = some cellR1 ∧
    cellR1.roomId = some 1 ∧
    (applyColor EditTarget.cell (some ((0 : ℤ), (0 : ℤ))) "#ff0000"
        storeR1).cells ((0 : ℤ), (0 : ℤ)) ≠ some cellR1 := by
  decide

/-- C1 (amended): the cell-level mutation operations dispatch on the edit
target instead of blocking.  With the room target (the state entered when
a grouped cell is selected) they leave every existing cell record — in
particular every grouped cell's colour, icon and notes — unchanged,
mutating only the owning room's record; with the cell target they
overwrite the selected cell's own field unconditionally, even when the
cell is grouped. -/
theorem cellOps_dispatch (s : Store) (k k2 : Coord) (cell : Cell) (v : String)
    (h : s.cells k2 = some cell) :
    (applyColor EditTarget.room (some k) v s).cells k2 = some cell ∧
    (applyIcon EditTarget.room (some k) v s).cells k2 = some cell ∧
    (applyNotes EditTarget.room (some k) v s).cells k2 = some cell ∧
    (applyColor EditTarget.cell (some k) v s).cells k =
      some { (s.cells k).getD defaultCell with c := some v } ∧
    (applyIcon EditTarget.cell (some k) v s).cells k =
      some { (s.cells k).getD defaultCell with icon := v } ∧
    (applyNotes EditTarget.cell (some k) v s).cells k =
      some { (s.cells k).getD defaultCell with n := v } := by
  refine ⟨?_, ?_, ?_, applyColor_cell_cells s k v, applyIcon_cell_cells s k v,
    applyNotes_cell_cells s k v⟩
  · rw [applyColor_room_cells]
    exact ensureCell_keeps h
  · rw [applyIcon_room_cells]
    exact ensureCell_keeps h
  · rw [applyNotes_room_cells]
    exact ensureCell_keeps h

/-- Witness for C1 (amended): instantiated at the grouped cell `(0,0)` of
`storeR1`. -/
theorem cellOps_dispatch_witness :
    (applyColor EditTarget.room (some ((0 : ℤ), (0 : ℤ))) "#ff0000"
        storeR1).cells ((0 : ℤ), (0 : ℤ)) = some cellR1 ∧
    (applyIcon EditTarget.room (some ((0 : ℤ), (0 : ℤ))) "#ff0000"
        storeR1).cells ((0 : ℤ), (0 : ℤ)) = some cellR1 ∧
    (applyNotes EditTarget.room (some ((0 : ℤ), (0 : ℤ))) "#ff0000"
        storeR1).cells ((0 : ℤ), (0 : ℤ)) = some cellR1 ∧
    (applyColor EditTarget.cell (some ((0 : ℤ), (0 : ℤ))) "#ff0000"
        storeR1).cells ((0 : ℤ), (0 : ℤ)) =
      some { (storeR1.cells ((0 : ℤ), (0 : ℤ))).getD defaultCell
        with c := some "#ff0000" } ∧
    (applyIcon EditTarget.cell (some ((0 : ℤ), (0 : ℤ))) "#ff0000"
        storeR1).cells ((0 : ℤ), (0 : ℤ)) =
      some { (storeR1.cells ((0 : ℤ), (0 : ℤ))).getD defaultCell
        with icon := "#ff0000" } ∧
    (applyNotes EditTarget.cell (some ((0 : ℤ), (0 : ℤ))) "#ff0000"
        storeR1).cells ((0 : ℤ), (0 : ℤ)) =
      some { (storeR1.cells ((0 : ℤ), (0 : ℤ))).getD defaultCell
        with n := "#ff0000" } :=
  cellOps_dispatch storeR1 ((0 : ℤ), (0 : ℤ)) ((0 : ℤ), (0 : ℤ)) cellR1
    "#ff0000" (by decide)

/-! ## C10: room renaming -/

/-- C10: for a store containing room `R` (selected through a member cell),
setting `R`'s name to the empty string keeps the previous name — the whole
room record is unchanged (`room.name = name || room.name`) — while setting
it to any non-empty string replaces exactly the name field. -/
theorem applyRoomName_empty_noop (s : Store) (k : Coord) (cell : Cell)
    (rid : ℕ) (room : Room) (hcell : s.cells k = some cell)
    (hrid : cell.roomId = some rid) (hroom : s.rooms rid = some room)
    (name : String) :
    (name = "" → (applyRoomName (some k) name s).rooms rid = some room) ∧
    (name ≠ "" → (applyRoomName (some k) name s).rooms rid =
        some { room with name := name }) := by
  have hres : applyRoomName (some k) name s = { s with rooms := updRooms s.rooms rid ({ room with name := if name = "" then room.name else name }) } := by
    simp only [applyRoomName, getCurrentRoomS, getCurrentCellS,
      ensureCell_found hcell, hrid, hroom]
  constructor
  · intro h
    rw [hres]
    show updRooms s.rooms rid _ rid = some room
    rw [updRooms_self, if_pos h]
  · intro h
    rw [hres]
    show updRooms s.rooms rid _ rid = some { room with name := name }
    rw [updRooms_self, if_neg h]

/-- Witness for C10: renaming room 1 of `storeR1` with `""` (kept) — the
empty-string branch of the theorem at a concrete store. -/
theorem applyRoomName_empty_noop_witness :
    (applyRoomName (some ((0 : ℤ), (0 : ℤ))) "" storeR1).rooms 1 =
      some roomR1 :=
  (applyRoomName_empty_noop storeR1 ((0 : ℤ), (0 : ℤ)) cellR1 1 roomR1
    (by decide) (by decide) (by decide) "").1 rfl

/-! ## C6, C7: snapshot import and export -/

/-- C6: if the parsed blob lacks either required mapping field (`cells` or
`rooms`, absent or null), `doImport` rejects it with the invalid-format
error and the store — cells, rooms and meta alike — is exactly its
pre-call value; nothing is partially applied. -/
theorem import_invalid_format_noop (s : Store) (b : Blob)
    (hbad : b.data = none ∨
      ∃ d, b.data = some d ∧ (d.cells = none ∨ d.rooms = none)) :
    doImport b s = s := by
  unfold doImport
  rcases hbad with h | ⟨d, hd, hcr⟩
  · rw [h]
  · rw [hd]
    show (match d.cells, d.rooms with
      | some c, some r => { cells := c, rooms := r, nextRoomId := d.meta.getD 1 }
      | _, _ => s) = s
    rcases hcr with h | h
    · rw [h]
    · rw [h]
      cases d.cells <;> rfl

/-- Witness for C6: importing a blob with no `rooms` field into `storeR1`
leaves the store untouched. -/
theorem import_invalid_format_noop_witness :
    doImport blobNoRooms storeR1 = storeR1 :=
  import_invalid_format_noop storeR1 blobNoRooms (Or.inr ⟨_, rfl, Or.inr rfl⟩)

/-- C7: importing the snapshot produced by `doExport` restores the exact
visible state — cells mapping, rooms mapping and next-room-id counter —
so import composed with export is the identity on the store. -/
theorem import_export_roundtrip (cols rows : ℕ) (s : Store) :
    doImport (doExport cols rows s) s = s := rfl

/-! ## C4: store well-formedness and its preservation -/

theorem ensureCell_self (s : Store) (k : Coord) :
    (ensureCell s k).1.cells k = some (ensureCell s k).2 := by
  rw [ensureCell_cells_eq, if_pos rfl, ensureCell_snd]

theorem ensureCell_cells_disj (s : Store) (k k2 : Coord) :
    (ensureCell s k).1.cells k2 = s.cells k2 ∨
      (s.cells k2 = none ∧ (ensureCell s k).1.cells k2 = some defaultCell) := by
  rw [ensureCell_cells_eq]
  by_cases hk : k2 = k
  · rw [if_pos hk, hk]
    cases hs : s.cells k with
    | none => exact Or.inr ⟨rfl, rfl⟩
    | some cell => exact Or.inl rfl
  · rw [if_neg hk]
    exact Or.inl rfl

theorem wf_addDefaults {s s2 : Store} (hrooms : s2.rooms = s.rooms)
    (hnext : s2.nextRoomId = s.nextRoomId)
    (hcells : ∀ k, s2.cells k = s.cells k ∨
      (s.cells k = none ∧ s2.cells k = some defaultCell))
    (h : WellFormed s) : WellFormed s2 := by
  constructor
  · intro k cell rid hc hr
    rcases hcells k with h1 | ⟨h1, h2⟩
    · rw [h1] at hc
      obtain ⟨room, hroom, hmem⟩ := h.cellRoom k cell rid hc hr
      exact ⟨room, by rw [hrooms]; exact hroom, hmem⟩
    · rw [h2] at hc
      injection hc with hc
      rw [← hc] at hr
      exact absurd hr (by simp [defaultCell])
  · intro rid room k hroom hmem
    obtain ⟨cell, hc, hr⟩ := h.memberBack rid room k
      (by rw [← hrooms]; exact hroom) hmem
    rcases hcells k with h1 | ⟨h1, h2⟩
    · exact ⟨cell, by rw [h1]; exact hc, hr⟩
    · rw [h1] at hc
      exact absurd hc (by simp)
  · intro rid room hroom
    rw [hnext]
    exact h.idLt rid room (by rw [← hrooms]; exact hroom)
  · intro rid room hroom
    exact h.idEq rid room (by rw [← hrooms]; exact hroom)

theorem wf_ensure (s : Store) (k : Coord) (h : WellFormed s) :
    WellFormed (ensureCell s k).1 :=
  wf_addDefaults (ensureCell_rooms s k) (ensureCell_next s k)
    (fun k2 => ensureCell_cells_disj s k k2) h

theorem wf_anyInRoom (ks : List Coord) (s : Store) (h : WellFormed s) :
    WellFormed (anyInRoom s ks).1 :=
  wf_addDefaults (anyInRoom_rooms ks s) (anyInRoom_next ks s)
    (fun k => by
      rcases anyInRoom_cells ks s k with h1 | ⟨_, h2, h3⟩
      · exact Or.inl h1
      · exact Or.inr ⟨h2, h3⟩) h

theorem wf_updateCell {s : Store} {k : Coord} {cell cell2 : Cell}
    (h : WellFormed s) (hc : s.cells k = some cell)
    (hrid : cell2.roomId = cell.roomId) :
    WellFormed { s with cells := updCells s.cells k cell2 } := by
  constructor
  · intro k2 c rid hc2 hr
    replace hc2 : updCells s.cells k cell2 k2 = some c := hc2
    show ∃ room, s.rooms rid = some room ∧ k2 ∈ room.cells
    by_cases hk : k2 = k
    · subst hk
      rw [updCells_self] at hc2
      injection hc2 with hc2
      rw [← hc2, hrid] at hr
      exact h.cellRoom k2 cell rid hc hr
    · rw [updCells_other _ _ _ _ hk] at hc2
      exact h.cellRoom k2 c rid hc2 hr
  · intro rid room k2 hroom hmem
    replace hroom : s.rooms rid = some room := hroom
    obtain ⟨c, hc2, hr⟩ := h.memberBack rid room k2 hroom hmem
    show ∃ cell3, updCells s.cells k cell2 k2 = some cell3 ∧
      cell3.roomId = some rid
    by_cases hk : k2 = k
    · subst hk
      rw [hc] at hc2
      injection hc2 with hc2
      refine ⟨cell2, updCells_self _ _ _, ?_⟩
      rw [hrid, hc2]
      exact hr
    · exact ⟨c, by rw [updCells_other _ _ _ _ hk]; exact hc2, hr⟩
  · intro rid room hroom
    exact h.idLt rid room hroom
  · intro rid room hroom
    exact h.idEq rid room hroom

theorem wf_updateRoom {s : Store} {rid : ℕ} {room room2 : Room}
    (h : WellFormed s) (hroom : s.rooms rid = some room)
    (hcells : room2.cells = room.cells) (hid : room2.id = room.id) :
    WellFormed { s with rooms := updRooms s.rooms rid room2 } := by
  constructor
  · intro k cell rid2 hc hr
    replace hc : s.cells k = some cell := hc
    obtain ⟨room3, hroom3, hmem⟩ := h.cellRoom k cell rid2 hc hr
    show ∃ room4, updRooms s.rooms rid room2 rid2 = some room4 ∧
      k ∈ room4.cells
    by_cases hr2 : rid2 = rid
    · subst hr2
      refine ⟨room2, updRooms_self _ _ _, ?_⟩
      rw [hcells]
      rw [hroom3] at hroom
      injection hroom with he
      rw [← he]
      exact hmem
    · exact ⟨room3, by rw [updRooms_other _ _ _ _ hr2]; exact hroom3, hmem⟩
  · intro rid2 room3 k hroom3 hmem
    replace hroom3 : updRooms s.rooms rid room2 rid2 = some room3 := hroom3
    by_cases hr2 : rid2 = rid
    · subst hr2
      rw [updRooms_self] at hroom3
      injection hroom3 with he
      have hmem2 : k ∈ room.cells := by
        rw [← hcells, he]
        exact hmem
      exact h.memberBack rid2 room k hroom hmem2
    · rw [updRooms_other _ _ _ _ hr2] at hroom3
      exact h.memberBack rid2 room3 k hroom3 hmem
  · intro rid2 room3 hroom3
    replace hroom3 : updRooms s.rooms rid room2 rid2 = some room3 := hroom3
    show rid2 < s.nextRoomId
    by_cases hr2 : rid2 = rid
    · subst hr2
      exact h.idLt rid2 room hroom
    · rw [updRooms_other _ _ _ _ hr2] at hroom3
      exact h.idLt rid2 room3 hroom3
  · intro rid2 room3 hroom3
    replace hroom3 : updRooms s.rooms rid room2 rid2 = some room3 := hroom3
    by_cases hr2 : rid2 = rid
    · subst hr2
      rw [updRooms_self] at hroom3
      injection hroom3 with he
      rw [← he, hid]
      exact h.idEq rid2 room hroom
    · rw [updRooms_other _ _ _ _ hr2] at hroom3
      exact h.idEq rid2 room3 hroom3

theorem wf_empty : WellFormed emptyStore := by
  constructor
  · intro k cell rid hc
    exact absurd hc (by simp [emptyStore])
  · intro rid room k hroom
    exact absurd hroom (by simp [emptyStore])
  · intro rid room hroom
    exact absurd hroom (by simp [emptyStore])
  · intro rid room hroom
    exact absurd hroom (by simp [emptyStore])

theorem wf_dissolve (rid : ℕ) (s : Store) (h : WellFormed s) :
    WellFormed (dissolveRoom rid s) := by
  cases hroom : s.rooms rid with
  | none =>
      rw [dissolveRoom_not_found hroom]
      exact h
  | some room =>
      obtain ⟨hrooms, hnext, hcells⟩ := dissolveRoom_spec hroom
      constructor
      · intro k cell rid2 hc hr
        rw [hcells k] at hc
        by_cases hk : k ∈ room.cells
        · rw [if_pos hk] at hc
          injection hc with hc
          rw [← hc] at hr
          exact absurd hr (by simp)
        · rw [if_neg hk] at hc
          obtain ⟨room2, hroom2, hmem⟩ := h.cellRoom k cell rid2 hc hr
          have hr2 : rid2 ≠ rid := by
            intro he
            subst he
            rw [hroom] at hroom2
            injection hroom2 with he2
            rw [he2] at hk
            exact hk hmem
          refine ⟨room2, ?_, hmem⟩
          rw [hrooms, eraseRoom_other _ _ _ hr2]
          exact hroom2
      · intro rid2 room2 k hroom2 hmem
        rw [hrooms] at hroom2
        by_cases hr2 : rid2 = rid
        · subst hr2
          rw [eraseRoom_self] at hroom2
          exact absurd hroom2 (by simp)
        · rw [eraseRoom_other _ _ _ hr2] at hroom2
          obtain ⟨cell, hc, hrc⟩ := h.memberBack rid2 room2 k hroom2 hmem
          have hk : k ∉ room.cells := by
            intro hkmem
            obtain ⟨cell2, hc2, hrc2⟩ := h.memberBack rid room k hroom hkmem
            rw [hc] at hc2
            injection hc2 with he
            rw [← he, hrc] at hrc2
            injection hrc2 with he2
            exact hr2 he2
          refine ⟨cell, ?_, hrc⟩
          rw [hcells k, if_neg hk]
          exact hc
      · intro rid2 room2 hroom2
        rw [hrooms] at hroom2
        rw [hnext]
        by_cases hr2 : rid2 = rid
        · subst hr2
          rw [eraseRoom_self] at hroom2
          exact absurd hroom2 (by simp)
        · rw [eraseRoom_other _ _ _ hr2] at hroom2
          exact h.idLt rid2 room2 hroom2
      · intro rid2 room2 hroom2
        rw [hrooms] at hroom2
        by_cases hr2 : rid2 = rid
        · subst hr2
          rw [eraseRoom_self] at hroom2
          exact absurd hroom2 (by simp)
        · rw [eraseRoom_other _ _ _ hr2] at hroom2
          exact h.idEq rid2 room2 hroom2

theorem anyInRoom_none_exists (ks : List Coord) :
    ∀ s : Store, (anyInRoom s ks).2 = none →
      ∀ k ∈ ks, ∃ cell, (anyInRoom s ks).1.cells k = some cell ∧
        cell.roomId = none := by
  induction ks with
  | nil => intro s _ k hk; exact absurd hk (List.not_mem_nil k)
  | cons a ks ih =>
      intro s hnone k hk
      rw [anyInRoom_cons] at hnone ⊢
      obtain hrid | ⟨rid, hrid⟩ : (ensureCell s a).2.roomId = none ∨
          ∃ r, (ensureCell s a).2.roomId = some r := by
        cases (ensureCell s a).2.roomId
        · exact Or.inl rfl
        · exact Or.inr ⟨_, rfl⟩
      · rw [hrid] at hnone ⊢
        rcases List.mem_cons.1 hk with h1 | h1
        · subst h1
          refine ⟨(ensureCell s k).2, ?_, hrid⟩
          exact anyInRoom_keeps ks (ensureCell s k).1 k (ensureCell s k).2
            (ensureCell_self s k)
        · exact ih (ensureCell s a).1 hnone k h1
      · rw [hrid] at hnone
        exact Option.noConfusion hnone

theorem sortKeys_mem (l : List Coord) (k : Coord) :
    k ∈ sortKeys l ↔ k ∈ l := List.mem_mergeSort

theorem wf_createSuccess (s1 : Store) (h1 : WellFormed s1)
    (staged : List Coord)
    (hall : ∀ k ∈ staged, ∃ cell, s1.cells k = some cell ∧
      cell.roomId = none)
    (room : Room) (hcid : room.id = s1.nextRoomId)
    (hcells : room.cells = sortKeys staged) :
    WellFormed (assignRoomIds { s1 with rooms := updRooms s1.rooms s1.nextRoomId room, nextRoomId := s1.nextRoomId + 1 } s1.nextRoomId room.cells) := by
  have hmem_iff : ∀ k, k ∈ room.cells ↔ k ∈ staged := by
    intro k
    rw [hcells]
    exact sortKeys_mem staged k
  have f_cells : ∀ k,
      (assignRoomIds { s1 with rooms := updRooms s1.rooms s1.nextRoomId room, nextRoomId := s1.nextRoomId + 1 } s1.nextRoomId room.cells).cells k =
        if k ∈ room.cells then
          some { (s1.cells k).getD defaultCell with roomId := some s1.nextRoomId }
        else s1.cells k := by
    intro k
    exact assignRoomIds_cells room.cells s1.nextRoomId _ k
  have f_rooms :
      (assignRoomIds { s1 with rooms := updRooms s1.rooms s1.nextRoomId room, nextRoomId := s1.nextRoomId + 1 } s1.nextRoomId room.cells).rooms =
        updRooms s1.rooms s1.nextRoomId room := by
    exact assignRoomIds_rooms room.cells s1.nextRoomId _
  have f_next :
      (assignRoomIds { s1 with rooms := updRooms s1.rooms s1.nextRoomId room, nextRoomId := s1.nextRoomId + 1 } s1.nextRoomId room.cells).nextRoomId =
        s1.nextRoomId + 1 := by
    exact assignRoomIds_next room.cells s1.nextRoomId _
  constructor
  · intro k cell rid2 hc hr
    rw [f_cells k] at hc
    by_cases hk : k ∈ room.cells
    · rw [if_pos hk] at hc
      injection hc with hc
      rw [← hc] at hr
      replace hr : some s1.nextRoomId = some rid2 := hr
      injection hr with hr
      refine ⟨room, ?_, ?_⟩
      · rw [f_rooms, ← hr]
        exact updRooms_self _ _ _
      · exact hk
    · rw [if_neg hk] at hc
      obtain ⟨room2, hroom2, hmem⟩ := h1.cellRoom k cell rid2 hc hr
      have hne : rid2 ≠ s1.nextRoomId :=
        Nat.ne_of_lt (h1.idLt rid2 room2 hroom2)
      refine ⟨room2, ?_, hmem⟩
      rw [f_rooms, updRooms_other _ _ _ _ hne]
      exact hroom2
  · intro rid2 room2 k hroom2 hmem
    rw [f_rooms] at hroom2
    by_cases hr2 : rid2 = s1.nextRoomId
    · subst hr2
      rw [updRooms_self] at hroom2
      injection hroom2 with he
      rw [← he] at hmem
      refine ⟨{ (s1.cells k).getD defaultCell with
        roomId := some s1.nextRoomId }, ?_, rfl⟩
      rw [f_cells k, if_pos hmem]
    · rw [updRooms_other _ _ _ _ hr2] at hroom2
      obtain ⟨cell, hc, hrc⟩ := h1.memberBack rid2 room2 k hroom2 hmem
      have hk : k ∉ room.cells := by
        intro hkmem
        obtain ⟨cell2, hc2, hrc2⟩ := hall k ((hmem_iff k).1 hkmem)
        rw [hc] at hc2
        injection hc2 with he
        rw [← he, hrc] at hrc2
        exact absurd hrc2 (by simp)
      refine ⟨cell, ?_, hrc⟩
      rw [f_cells k, if_neg hk]
      exact hc
  · intro rid2 room2 hroom2
    rw [f_rooms] at hroom2
    rw [f_next]
    by_cases hr2 : rid2 = s1.nextRoomId
    · omega
    · rw [updRooms_other _ _ _ _ hr2] at hroom2
      have := h1.idLt rid2 room2 hroom2
      omega
  · intro rid2 room2 hroom2
    rw [f_rooms] at hroom2
    by_cases hr2 : rid2 = s1.nextRoomId
    · subst hr2
      rw [updRooms_self] at hroom2
      injection hroom2 with he
      rw [← he, hcid]
    · rw [updRooms_other _ _ _ _ hr2] at hroom2
      exact h1.idEq rid2 room2 hroom2

theorem wf_create (staged : List Coord) (s : Store) (h : WellFormed s) :
    WellFormed (createRoomFromStage staged s) := by
  by_cases h1 : staged.isEmpty = true
  · have hres : createRoomFromStage staged s = s := by
      unfold createRoomFromStage
      rw [if_pos h1]
    rw [hres]
    exact h
  by_cases h2 : (!(isContiguous staged)) = true
  · have hres : createRoomFromStage staged s = s := by
      unfold createRoomFromStage
      rw [if_neg h1, if_pos h2]
    rw [hres]
    exact h
  cases hany : (anyInRoom s staged).2 with
  | some rid =>
      have hres : createRoomFromStage staged s = (anyInRoom s staged).1 := by
        unfold createRoomFromStage
        rw [if_neg h1, if_neg h2]
        simp only [hany]
      rw [hres]
      exact wf_anyInRoom staged s h
  | none =>
      unfold createRoomFromStage
      rw [if_neg h1, if_neg h2]
      simp only [hany]
      exact wf_createSuccess (anyInRoom s staged).1 (wf_anyInRoom staged s h)
        staged (anyInRoom_none_exists staged s hany) _ rfl rfl

theorem getCurrentRoomS_none_fst (s : Store) :
    (getCurrentRoomS none s).1 = s := rfl

theorem getCurrentRoomS_eq (k : Coord) (s : Store) :
    getCurrentRoomS (some k) s =
      match (ensureCell s k).2.roomId with
      | none => ((ensureCell s k).1, none)
      | some rid =>
        match (ensureCell s k).1.rooms rid with
        | none => ((ensureCell s k).1, none)
        | some room => ((ensureCell s k).1, some (rid, room)) := rfl

theorem getCurrentRoomS_fst (k : Coord) (s : Store) :
    (getCurrentRoomS (some k) s).1 = (ensureCell s k).1 := by
  rw [getCurrentRoomS_eq]
  obtain hrid | ⟨rid, hrid⟩ : (ensureCell s k).2.roomId = none ∨
      ∃ r, (ensureCell s k).2.roomId = some r := by
    cases (ensureCell s k).2.roomId
    · exact Or.inl rfl
    · exact Or.inr ⟨_, rfl⟩
  · rw [hrid]
  · rw [hrid]
    show (match (ensureCell s k).1.rooms rid with
      | none => ((ensureCell s k).1, (none : Option (ℕ × Room)))
      | some room => ((ensureCell s k).1, some (rid, room))).1 =
      (ensureCell s k).1
    obtain hroom | ⟨room, hroom⟩ : (ensureCell s k).1.rooms rid = none ∨
        ∃ r, (ensureCell s k).1.rooms rid = some r := by
      cases (ensureCell s k).1.rooms rid
      · exact Or.inl rfl
      · exact Or.inr ⟨_, rfl⟩
    · rw [hroom]
    · rw [hroom]

theorem wf_getCurrentRoom (sel : Option Coord) (s : Store)
    (h : WellFormed s) : WellFormed (getCurrentRoomS sel s).1 := by
  cases sel with
  | none => exact h
  | some k =>
      rw [getCurrentRoomS_fst]
      exact wf_ensure s k h

theorem getCurrentRoomS_snd_some (sel : Option Coord) (s : Store)
    (pr : ℕ × Room) (h : (getCurrentRoomS sel s).2 = some pr) :
    (getCurrentRoomS sel s).1.rooms pr.1 = some pr.2 := by
  cases sel with
  | none => exact Option.noConfusion h
  | some k =>
      rw [getCurrentRoomS_eq] at h ⊢
      obtain hrid | ⟨rid, hrid⟩ : (ensureCell s k).2.roomId = none ∨
          ∃ r, (ensureCell s k).2.roomId = some r := by
        cases (ensureCell s k).2.roomId
        · exact Or.inl rfl
        · exact Or.inr ⟨_, rfl⟩
      · rw [hrid] at h
        exact Option.noConfusion h
      · rw [hrid] at h ⊢
        replace h : (match (ensureCell s k).1.rooms rid with
          | none => ((ensureCell s k).1, (none : Option (ℕ × Room)))
          | some room => ((ensureCell s k).1, some (rid, room))).2 =
            some pr := h
        show (match (ensureCell s k).1.rooms rid with
          | none => ((ensureCell s k).1, (none : Option (ℕ × Room)))
          | some room => ((ensureCell s k).1, some (rid, room))).1.rooms
            pr.1 = some pr.2
        obtain hroom | ⟨room, hroom⟩ : (ensureCell s k).1.rooms rid = none ∨
            ∃ r, (ensureCell s k).1.rooms rid = some r := by
          cases (ensureCell s k).1.rooms rid
          · exact Or.inl rfl
          · exact Or.inr ⟨_, rfl⟩
        · rw [hroom] at h
          exact Option.noConfusion h
        · rw [hroom] at h ⊢
          injection h with h
          rw [← h]
          exact hroom

theorem wf_applyColor (t : EditTarget) (sel : Option Coord) (v : String)
    (s : Store) (h : WellFormed s) : WellFormed (applyColor t sel v s) := by
  cases sel with
  | none => exact h
  | some k =>
      cases t with
      | cell =>
          show WellFormed { (ensureCell s k).1 with cells := updCells (ensureCell s k).1.cells k ({ (ensureCell s k).2 with c := some v }) }
          exact wf_updateCell (wf_ensure s k h) (ensureCell_self s k) rfl
      | room =>
          show WellFormed (match (ensureCell s k).2.roomId with
            | none => (ensureCell s k).1
            | some rid =>
              match (ensureCell s k).1.rooms rid with
              | none => (ensureCell s k).1
              | some room => { (ensureCell s k).1 with rooms := updRooms (ensureCell s k).1.rooms rid ({ room with c := v }) })
          obtain hrid | ⟨rid, hrid⟩ : (ensureCell s k).2.roomId = none ∨
              ∃ r, (ensureCell s k).2.roomId = some r := by
            cases (ensureCell s k).2.roomId
            · exact Or.inl rfl
            · exact Or.inr ⟨_, rfl⟩
          · rw [hrid]
            exact wf_ensure s k h
          · rw [hrid]
            show WellFormed (match (ensureCell s k).1.rooms rid with
              | none => (ensureCell s k).1
              | some room => { (ensureCell s k).1 with rooms := updRooms (ensureCell s k).1.rooms rid ({ room with c := v }) })
            obtain hroom | ⟨room, hroom⟩ : (ensureCell s k).1.rooms rid = none ∨
                ∃ r, (ensureCell s k).1.rooms rid = some r := by
              cases (ensureCell s k).1.rooms rid
              · exact Or.inl rfl
              · exact Or.inr ⟨_, rfl⟩
            · rw [hroom]
              exact wf_ensure s k h
            · rw [hroom]
              exact wf_updateRoom (wf_ensure s k h) hroom rfl rfl

theorem wf_applyIcon (t : EditTarget) (sel : Option Coord) (v : String)
    (s : Store) (h : WellFormed s) : WellFormed (applyIcon t sel v s) := by
  cases sel with
  | none => exact h
  | some k =>
      cases t with
      | cell =>
          show WellFormed { (ensureCell s k).1 with cells := updCells (ensureCell s k).1.cells k ({ (ensureCell s k).2 with icon := v }) }
          exact wf_updateCell (wf_ensure s k h) (ensureCell_self s k) rfl
      | room =>
          show WellFormed (match (ensureCell s k).2.roomId with
            | none => (ensureCell s k).1
            | some rid =>
              match (ensureCell s k).1.rooms rid with
              | none => (ensureCell s k).1
              | some room => { (ensureCell s k).1 with rooms := updRooms (ensureCell s k).1.rooms rid ({ room with icon := v }) })
          obtain hrid | ⟨rid, hrid⟩ : (ensureCell s k).2.roomId = none ∨
              ∃ r, (ensureCell s k).2.roomId = some r := by
            cases (ensureCell s k).2.roomId
            · exact Or.inl rfl
            · exact Or.inr ⟨_, rfl⟩
          · rw [hrid]
            exact wf_ensure s k h
          · rw [hrid]
            show WellFormed (match (ensureCell s k).1.rooms rid with
              | none => (ensureCell s k).1
              | some room => { (ensureCell s k).1 with rooms := updRooms (ensureCell s k).1.rooms rid ({ room with icon := v }) })
            obtain hroom | ⟨room, hroom⟩ : (ensureCell s k).1.rooms rid = none ∨
                ∃ r, (ensureCell s k).1.rooms rid = some r := by
              cases (ensureCell s k).1.rooms rid
              · exact Or.inl rfl
              · exact Or.inr ⟨_, rfl⟩
            · rw [hroom]
              exact wf_ensure s k h
            · rw [hroom]
              exact wf_updateRoom (wf_ensure s k h) hroom rfl rfl

theorem wf_applyNotes (t : EditTarget) (sel : Option Coord) (v : String)
    (s : Store) (h : WellFormed s) : WellFormed (applyNotes t sel v s) := by
  cases sel with
  | none => exact h
  | some k =>
      cases t with
      | cell =>
          show WellFormed { (ensureCell s k).1 with cells := updCells (ensureCell s k).1.cells k ({ (ensureCell s k).2 with n := v }) }
          exact wf_updateCell (wf_ensure s k h) (ensureCell_self s k) rfl
      | room =>
          show WellFormed (match (ensureCell s k).2.roomId with
            | none => (ensureCell s k).1
            | some rid =>
              match (ensureCell s k).1.rooms rid with
              | none => (ensureCell s k).1
              | some room => { (ensureCell s k).1 with rooms := updRooms (ensureCell s k).1.rooms rid ({ room with n := v }) })
          obtain hrid | ⟨rid, hrid⟩ : (ensureCell s k).2.roomId = none ∨
              ∃ r, (ensureCell s k).2.roomId = some r := by
            cases (ensureCell s k).2.roomId
            · exact Or.inl rfl
            · exact Or.inr ⟨_, rfl⟩
          · rw [hrid]
            exact wf_ensure s k h
          · rw [hrid]
            show WellFormed (match (ensureCell s k).1.rooms rid with
              | none => (ensureCell s k).1
              | some room => { (ensureCell s k).1 with rooms := updRooms (ensureCell s k).1.rooms rid ({ room with n := v }) })
            obtain hroom | ⟨room, hroom⟩ : (ensureCell s k).1.rooms rid = none ∨
                ∃ r, (ensureCell s k).1.rooms rid = some r := by
              cases (ensureCell s k).1.rooms rid
              · exact Or.inl rfl
              · exact Or.inr ⟨_, rfl⟩
            · rw [hroom]
              exact wf_ensure s k h
            · rw [hroom]
              exact wf_updateRoom (wf_ensure s k h) hroom rfl rfl

theorem wf_applyRoomName (sel : Option Coord) (v : String) (s : Store)
    (h : WellFormed s) : WellFormed (applyRoomName sel v s) := by
  have h1 : WellFormed (getCurrentRoomS sel s).1 := wf_getCurrentRoom sel s h
  show WellFormed (match (getCurrentRoomS sel s).2 with
    | none => (getCurrentRoomS sel s).1
    | some pr => { (getCurrentRoomS sel s).1 with rooms := updRooms (getCurrentRoomS sel s).1.rooms pr.1 ({ pr.2 with name := if v = "" then pr.2.name else v }) })
  obtain hpr | ⟨pr, hpr⟩ : (getCurrentRoomS sel s).2 = none ∨
      ∃ p, (getCurrentRoomS sel s).2 = some p := by
    cases (getCurrentRoomS sel s).2
    · exact Or.inl rfl
    · exact Or.inr ⟨_, rfl⟩
  · rw [hpr]
    exact h1
  · rw [hpr]
    exact wf_updateRoom h1 (getCurrentRoomS_snd_some sel s pr hpr) rfl rfl

theorem wf_applyRoomKind (sel : Option Coord) (v : String) (s : Store)
    (h : WellFormed s) : WellFormed (applyRoomKind sel v s) := by
  have h1 : WellFormed (getCurrentRoomS sel s).1 := wf_getCurrentRoom sel s h
  show WellFormed (match (getCurrentRoomS sel s).2 with
    | none => (getCurrentRoomS sel s).1
    | some pr => { (getCurrentRoomS sel s).1 with rooms := updRooms (getCurrentRoomS sel s).1.rooms pr.1 ({ pr.2 with kind := if v = "" then "room" else v }) })
  obtain hpr | ⟨pr, hpr⟩ : (getCurrentRoomS sel s).2 = none ∨
      ∃ p, (getCurrentRoomS sel s).2 = some p := by
    cases (getCurrentRoomS sel s).2
    · exact Or.inl rfl
    · exact Or.inr ⟨_, rfl⟩
  · rw [hpr]
    exact h1
  · rw [hpr]
    exact wf_updateRoom h1 (getCurrentRoomS_snd_some sel s pr hpr) rfl rfl

theorem wf_clearSelectedCell (sel : Option Coord) (s : Store)
    (h : WellFormed s) : WellFormed (clearSelectedCell sel s) := by
  cases sel with
  | none => exact h
  | some k =>
      show WellFormed (match (ensureCell s k).2.roomId with
        | some _ => (ensureCell s k).1
        | none => { (ensureCell s k).1 with cells := updCells (ensureCell s k).1.cells k ({ (ensureCell s k).2 with c := none, icon := "", n := "" }) })
      obtain hrid | ⟨rid, hrid⟩ : (ensureCell s k).2.roomId = none ∨
          ∃ r, (ensureCell s k).2.roomId = some r := by
        cases (ensureCell s k).2.roomId
        · exact Or.inl rfl
        · exact Or.inr ⟨_, rfl⟩
      · rw [hrid]
        exact wf_updateCell (wf_ensure s k h) (ensureCell_self s k) rfl
      · rw [hrid]
        exact wf_ensure s k h

theorem wf_deleteCurrentRoom (sel : Option Coord) (s : Store)
    (h : WellFormed s) : WellFormed (deleteCurrentRoom sel s) := by
  have h1 : WellFormed (getCurrentRoomS sel s).1 := wf_getCurrentRoom sel s h
  show WellFormed (match (getCurrentRoomS sel s).2 with
    | none => (getCurrentRoomS sel s).1
    | some pr => dissolveRoom pr.2.id (getCurrentRoomS sel s).1)
  obtain hpr | ⟨pr, hpr⟩ : (getCurrentRoomS sel s).2 = none ∨
      ∃ p, (getCurrentRoomS sel s).2 = some p := by
    cases (getCurrentRoomS sel s).2
    · exact Or.inl rfl
    · exact Or.inr ⟨_, rfl⟩
  · rw [hpr]
    exact h1
  · rw [hpr]
    exact wf_dissolve pr.2.id _ h1

theorem wf_doImport (b : Blob) (s : Store) (h : WellFormed s)
    (hb : BlobWF b) : WellFormed (doImport b s) := by
  unfold doImport
  obtain hd | ⟨d, hd⟩ : b.data = none ∨ ∃ d, b.data = some d := by
    cases b.data
    · exact Or.inl rfl
    · exact Or.inr ⟨_, rfl⟩
  · rw [hd]
    exact h
  · rw [hd]
    show WellFormed (match d.cells, d.rooms with
      | some c, some r => { cells := c, rooms := r, nextRoomId := d.meta.getD 1 }
      | _, _ => s)
    obtain hc | ⟨c, hc⟩ : d.cells = none ∨ ∃ c, d.cells = some c := by
      cases d.cells
      · exact Or.inl rfl
      · exact Or.inr ⟨_, rfl⟩
    · rw [hc]
      exact h
    · rw [hc]
      obtain hr | ⟨r, hr⟩ : d.rooms = none ∨ ∃ r, d.rooms = some r := by
        cases d.rooms
        · exact Or.inl rfl
        · exact Or.inr ⟨_, rfl⟩
      · rw [hr]
        exact h
      · rw [hr]
        exact hb d c r hd hc hr

theorem wf_applyOp (s : Store) (op : Op) (h : WellFormed s)
    (hb : ∀ b, op = Op.imp b → BlobWF b) : WellFormed (applyOp s op) := by
  cases op with
  | create staged => exact wf_create staged s h
  | dissolve rid => exact wf_dissolve rid s h
  | delete sel => exact wf_deleteCurrentRoom sel s h
  | color t sel v => exact wf_applyColor t sel v s h
  | icon t sel v => exact wf_applyIcon t sel v s h
  | notes t sel v => exact wf_applyNotes t sel v s h
  | roomName sel v => exact wf_applyRoomName sel v s h
  | roomKind sel v => exact wf_applyRoomKind sel v s h
  | clearCell sel => exact wf_clearSelectedCell sel s h
  | imp b => exact wf_doImport b s h (hb b rfl)
  | wipe => exact wf_empty

theorem wf_applyOps (ops : List Op) :
    ∀ s : Store, WellFormed s → (∀ b, Op.imp b ∈ ops → BlobWF b) →
      WellFormed (applyOps s ops) := by
  induction ops with
  | nil => intro s h _; exact h
  | cons op ops ih =>
      intro s h hb
      show WellFormed (applyOps (applyOp s op) ops)
      refine ih (applyOp s op) (wf_applyOp s op h ?_) ?_
      · intro b he
        refine hb b ?_
        rw [← he]
        exact List.mem_cons_self _ _
      · intro b hbmem
        exact hb b (List.mem_cons_of_mem _ hbmem)

theorem wf_cellRoomInv {s : Store} (h : WellFormed s) : CellRoomInv s :=
  h.cellRoom

theorem wf_roomsDisjoint {s : Store} (h : WellFormed s) : RoomsDisjoint s := by
  intro r1 r2 room1 room2 h1 h2 hne k hk1 hk2
  obtain ⟨cell, hc, hr⟩ := h.memberBack r1 room1 k h1 hk1
  obtain ⟨cell2, hc2, hr2⟩ := h.memberBack r2 room2 k h2 hk2
  rw [hc] at hc2
  injection hc2 with he
  rw [← he, hr] at hr2
  injection hr2 with he2
  exact hne he2

/-- C4 (counterexample): `importSnapshot` validates only the presence of
the two mapping fields, so importing a blob whose cell `(0,0)` carries
`roomId = 1` while its rooms mapping is empty succeeds — and the resulting
store, reached from the empty store by one successful operation, has a
cell whose `roomId` points at a nonexistent room. -/
theorem invariant_broken_by_import :
    importOk danglingBlob ∧
    (applyOps emptyStore [Op.imp danglingBlob]).cells ((0 : ℤ), (0 : ℤ)) =
      some cellR1 ∧
    cellR1.roomId = some 1 ∧
    (applyOps emptyStore [Op.imp danglingBlob]).rooms 1 = none ∧
    ¬ CellRoomInv (applyOps emptyStore [Op.imp danglingBlob]) := by
  refine ⟨⟨_, rfl, by simp, by simp⟩, rfl, rfl, rfl, ?_⟩
  intro hinv
  obtain ⟨room, hroom, _⟩ := hinv ((0 : ℤ), (0 : ℤ)) cellR1 1 rfl rfl
  exact Option.noConfusion hroom

/-- C4 (amended): after every sequence of store operations — room
creation, dissolve, delete, cell and room attribute edits, clear, import
and wipe, successful or failing — starting from an empty or well-formed
store, and in which every imported blob's payload is itself well formed,
every cell with a non-null `roomId` references an existing room whose
member list contains that cell's key, and no two distinct rooms share a
member cell. -/
theorem invariant_preserved (s0 : Store) (h0 : WellFormed s0) (ops : List Op)
    (hb : ∀ b, Op.imp b ∈ ops → BlobWF b) :
    CellRoomInv (applyOps s0 ops) ∧ RoomsDisjoint (applyOps s0 ops) :=
  have hwf := wf_applyOps ops s0 h0 hb
  ⟨wf_cellRoomInv hwf, wf_roomsDisjoint hwf⟩

/-- Witness for C4 (amended): a singleton-room creation on the empty
store. -/
theorem invariant_preserved_witness :
    CellRoomInv (applyOps emptyStore [Op.create [((0 : ℤ), (0 : ℤ))]]) ∧
    RoomsDisjoint (applyOps emptyStore [Op.create [((0 : ℤ), (0 : ℤ))]]) :=
  invariant_preserved emptyStore wf_empty [Op.create [((0 : ℤ), (0 : ℤ))]]
    (by
      intro b hbmem
      exact absurd (List.mem_singleton.1 hbmem) (by simp))

end DungeonTracker
